import Mathlib

set_option linter.unusedVariables false

/-! # Verification of the SublimeJDB debugger session engine

Shallow embedding of `src/sublimejdb.py`.  Python strings are modelled as
`List Char`; the debugger subprocess, the filesystem and the Sublime UI are
modelled as oracles and effect lists.  `os.path` is embedded with POSIX
semantics (`posixpath.normcase` is the identity). -/

namespace SJDB

abbrev Str := List Char

/-- Character list of a Lean string literal. -/
def strLC (s : String) : Str := s.data

/-- Python `needle in hay`: substring containment test. -/
def listContains (hay needle : Str) : Bool :=
  (List.range (hay.length + 1)).any (fun i => needle.isPrefixOf (hay.drop i))

/-- Python `s.startswith(pre)`. -/
def startswith (s pre : Str) : Bool := pre.isPrefixOf s

/-! ## Decimal rendering and the internal reply tag

`run_cmd` and `jdboutput` build `countstr = "%d^" % count` and correlate a
blocking command with its reply via `jdb_lastresult.startswith(countstr)`. -/

/-- Decimal digit character, as produced by Python's `"%d"` formatting. -/
def digitChar (d : Nat) : Char :=
  if d = 0 then '0' else if d = 1 then '1' else if d = 2 then '2' else if d = 3 then '3'
  else if d = 4 then '4' else if d = 5 then '5' else if d = 6 then '6' else if d = 7 then '7'
  else if d = 8 then '8' else '9'

/-- Decimal rendering of a natural number (Python `"%d" % n`). -/
def natChars (n : Nat) : Str :=
  if n < 10 then [digitChar n]
  else natChars (n / 10) ++ [digitChar (n % 10)]
termination_by n
decreasing_by exact Nat.div_lt_self (by omega) (by omega)

/-- The engine-internal reply tag `"<id>^"` (`countstr` in `run_cmd`/`jdboutput`). -/
def tagOf (n : Nat) : Str := natChars n ++ ['^']

/-- Numeric value of a digit character. -/
def charVal (c : Char) : Nat := c.toNat - 48

/-- Decimal value of a character list (left fold, inverse of `natChars`). -/
def valOf (l : Str) : Nat := l.foldl (fun a c => 10 * a + charVal c) 0

lemma charVal_digitChar : ∀ d, d < 10 → charVal (digitChar d) = d := by decide

lemma digitChar_ne_caret (d : Nat) : digitChar d ≠ '^' := by
  unfold digitChar; split_ifs <;> decide

lemma valOf_append_digit (xs : Str) (c : Char) :
    valOf (xs ++ [c]) = 10 * valOf xs + charVal c := by
  simp [valOf, List.foldl_append]

lemma valOf_natChars (n : Nat) : valOf (natChars n) = n := by
  induction n using natChars.induct with
  | case1 n h =>
      rw [natChars, if_pos h]
      simp [valOf, charVal_digitChar n h]
  | case2 n h ih =>
      rw [natChars, if_neg h, valOf_append_digit, ih,
        charVal_digitChar (n % 10) (Nat.mod_lt _ (by omega))]
      omega

lemma natChars_inj {m n : Nat} (h : natChars m = natChars n) : m = n := by
  have := congrArg valOf h
  rwa [valOf_natChars, valOf_natChars] at this

lemma natChars_ne_caret (n : Nat) : ∀ c ∈ natChars n, c ≠ '^' := by
  induction n using natChars.induct with
  | case1 n h =>
      rw [natChars, if_pos h]
      intro c hc
      simp only [List.mem_singleton] at hc
      subst hc; exact digitChar_ne_caret n
  | case2 n h ih =>
      rw [natChars, if_neg h]
      intro c hc
      rcases List.mem_append.mp hc with h1 | h2
      · exact ih c h1
      · simp only [List.mem_singleton] at h2
        subst h2; exact digitChar_ne_caret _

/-- A (caret-free)-digits-then-caret string is uniquely parsed: if one such
tagged string is a prefix of another followed by anything, the digit parts
agree. -/
lemma caretfree_eq_of_pre :
    ∀ (a b s : Str), (∀ c ∈ a, c ≠ '^') → (∀ c ∈ b, c ≠ '^') →
      (a ++ ['^']) <+: (b ++ '^' :: s) → a = b := by
  intro a
  induction a with
  | nil =>
      intro b s _ hb hp
      cases b with
      | nil => rfl
      | cons d b2 =>
          simp only [List.nil_append, List.cons_append] at hp
          have := (List.cons_prefix_cons.mp hp).1
          exact absurd this.symm (hb d (by simp))
  | cons c a2 ih =>
      intro b s ha hb hp
      cases b with
      | nil =>
          simp only [List.cons_append, List.nil_append] at hp
          have := (List.cons_prefix_cons.mp hp).1
          exact absurd this (ha c (by simp))
      | cons d b2 =>
          simp only [List.cons_append] at hp
          obtain ⟨hcd, htl⟩ := List.cons_prefix_cons.mp hp
          have := ih b2 s (fun x hx => ha x (by simp [hx])) (fun x hx => hb x (by simp [hx])) htl
          rw [hcd, this]

/-- Exact-id correlation: the tag of `m` begins a tagged string `tagOf n ++ s`
iff `m = n` — a reply tagged with a different id never matches
(`jdb_lastresult.startswith(countstr)` in `run_cmd`). -/
lemma tagOf_pre_iff (m n : Nat) (s : Str) : tagOf m <+: (tagOf n ++ s) ↔ m = n := by
  constructor
  · intro h
    rw [tagOf, tagOf, List.append_assoc, List.singleton_append] at h
    exact natChars_inj (caretfree_eq_of_pre _ _ _ (natChars_ne_caret m) (natChars_ne_caret n) h)
  · rintro rfl
    exact List.prefix_append _ _

lemma startswith_tag_iff (m n : Nat) (s : Str) :
    startswith (tagOf n ++ s) (tagOf m) = true ↔ m = n := by
  rw [startswith, List.isPrefixOf_iff_prefix]
  exact tagOf_pre_iff m n s

lemma startswith_append_drop {s pre : Str} (h : startswith s pre = true) :
    s = pre ++ s.drop pre.length := by
  rw [startswith, List.isPrefixOf_iff_prefix] at h
  obtain ⟨t, ht⟩ := h
  rw [← ht, List.drop_left]

/-! ## Python string helpers used by the path and registry code -/

/-- Python `s.split(sep)` for a one-character separator: splits at every
occurrence and keeps empty pieces (`"".split("/") == [""]`). -/
def pySplit (sep : Char) : Str → List Str
  | [] => [[]]
  | c :: rest =>
    match pySplit sep rest with
    | [] => [[]]
    | h :: t => if c = sep then [] :: h :: t else (c :: h) :: t

/-- Python `s.split(sep)` for a multi-character separator (non-overlapping,
left to right).  The empty separator is rejected by Python; here it splits
nothing. -/
def pySplitStr (sep : Str) : Str → List Str
  | [] => [[]]
  | c :: rest =>
    if !sep.isEmpty && sep.isPrefixOf (c :: rest) then
      [] :: pySplitStr sep (rest.drop (sep.length - 1))
    else
      match pySplitStr sep rest with
      | [] => [[]]
      | h :: t => (c :: h) :: t
termination_by l => l.length
decreasing_by
  · simp only [List.length_drop, List.length_cons]; omega
  · simp only [List.length_cons]; omega

/-- Python `s.replace(old, new)`: non-overlapping, left to right.  The empty
`old` (not used by the source) is treated as no match. -/
def pyReplace (needle repl : Str) : Str → Str
  | [] => []
  | c :: rest =>
    if !needle.isEmpty && needle.isPrefixOf (c :: rest) then
      repl ++ pyReplace needle repl (rest.drop (needle.length - 1))
    else c :: pyReplace needle repl rest
termination_by l => l.length
decreasing_by
  · simp only [List.length_drop, List.length_cons]; omega
  · simp only [List.length_cons]; omega

/-- Python `hay.find(needle)`: index of the first occurrence, `-1` if absent. -/
def pyFind (hay needle : Str) : Int :=
  match (List.range (hay.length + 1)).find? (fun i => needle.isPrefixOf (hay.drop i)) with
  | some i => (i : Int)
  | none => -1

/-- Python slice `s[k:]` for a possibly negative `k`. -/
def pySliceFrom (s : Str) (k : Int) : Str :=
  if k < 0 then s.drop (s.length - (-k).toNat) else s.drop k.toNat

/-- Python `sep.join(parts)` for a one-character separator. -/
def joinSep (sep : Char) : List Str → Str
  | [] => []
  | [c] => c
  | c :: rest => c ++ sep :: joinSep sep rest

/-! ## POSIX `os.path` model

`normalize` in the source is `os.path.abspath(os.path.normcase(filename))`
(src/sublimejdb.py lines 927-933); on POSIX `normcase` is the identity and
`abspath` is `normpath(join(getcwd(), path))`.  The current working directory
is passed explicitly as `cwd`. -/

/-- Python `posixpath.isabs`. -/
def isabs (p : Str) : Bool := List.isPrefixOf ['/'] p

/-- Python `posixpath.join(a, b)` for two arguments. -/
def pyJoin2 (a b : Str) : Str :=
  if isabs b then b
  else if a.isEmpty || a.getLast? == some '/' then a ++ b
  else a ++ '/' :: b

/-- The component `"."`. -/
def dotC : Str := ['.']

/-- The component `".."`. -/
def ddot : Str := ['.', '.']

/-- One step of `posixpath.normpath`'s component loop (`for comp in comps`). -/
def npStep (hasSlashes : Bool) (acc : List Str) (comp : Str) : List Str :=
  if comp == ([] : Str) || comp == dotC then acc
  else if !(comp == ddot) || (!hasSlashes && acc.isEmpty) ||
      (!acc.isEmpty && acc.getLast? == some ddot) then
    acc ++ [comp]
  else if !acc.isEmpty then acc.dropLast
  else acc

/-- The `initial_slashes` count of `posixpath.normpath` (0, 1 or 2). -/
def npSlashes (p : Str) : Nat :=
  if List.isPrefixOf ['/'] p && List.isPrefixOf ['/', '/'] p &&
      !(List.isPrefixOf ['/', '/', '/'] p) then 2
  else if List.isPrefixOf ['/'] p then 1 else 0

/-- The processed component list of `posixpath.normpath` (`new_comps`). -/
def npComps (p : Str) : List Str :=
  (pySplit '/' p).foldl (npStep (List.isPrefixOf ['/'] p)) []

/-- Reassembly of `posixpath.normpath`'s result from slashes and components. -/
def npRender (k : Nat) (nc : List Str) : Str :=
  List.replicate k '/' ++ joinSep '/' nc

/-- Python `posixpath.normpath`. -/
def normpath (p : Str) : Str :=
  if p.isEmpty then dotC
  else if (npRender (npSlashes p) (npComps p)).isEmpty then dotC
  else npRender (npSlashes p) (npComps p)

/-- Python `posixpath.abspath(p)` relative to an explicit `cwd`. -/
def abspath (cwd p : Str) : Str :=
  if isabs p then normpath p else normpath (pyJoin2 cwd p)

/-- The source's `normalize` on a genuine string (POSIX `normcase` is the
identity). -/
def normalizeS (cwd p : Str) : Str := abspath cwd p

/-- The source's `normalize` (src/sublimejdb.py lines 927-933), including the
`None` short-circuit. -/
def normalize (cwd : Str) : Option Str → Option Str
  | none => none
  | some f => some (normalizeS cwd f)

/-! ## Command/Response Correlator: `run_cmd` (src/sublimejdb.py lines 471-497)

The global `count` is the sequence counter; `jdb_lastresult` is the shared
"last reply" slot written by the reader threads.  The successive values the
polling loop observes in `jdb_lastresult` are modelled by `lastAt : Nat → Str`
(the value read at the i-th poll; the final re-read in the `return` statement
is identified with the value at the exiting poll).  `timeout = 10` seconds and
`timeoutcount = timeout/0.001` evaluates to `10000.0`. -/

/-- The poll budget `timeout/0.001` of `run_cmd` (10000 iterations of 1 ms). -/
def timeoutcount : Nat := 10000

/-- The busy-wait loop of `run_cmd`: starting from poll index `i`, return the
index at which the loop exits (`while not jdb_lastresult.startswith(countstr)
and i < timeoutcount`). -/
def pollFrom (lastAt : Nat → Str) (tag : Str) (i : Nat) : Nat :=
  if startswith (lastAt i) tag || decide (timeoutcount ≤ i) then i
  else pollFrom lastAt tag (i + 1)
termination_by timeoutcount - i
decreasing_by
  rename_i h
  simp only [Bool.or_eq_true, decide_eq_true_eq, not_or] at h
  omega

/-- Errors raised by `run_cmd`: `ValueError` when JDB is not running, and the
`ValueError` raised on timeout — which carries the command text (with its
appended newline) and the timeout in seconds. -/
inductive JdbErr
  | notRunning (cmd : Str)
  | timeout (cmdWithNewline : Str) (secs : Nat)
deriving DecidableEq

/-- Result of one `run_cmd` call: the new value of the global `count`, the
lines written to the subprocess's stdin, and the returned reply
(`.ok none` for a fire-and-forget call). -/
structure RunCmdOut where
  newCount : Nat
  written : List Str
  result : Except JdbErr (Option Str)

instance : DecidableEq (Except JdbErr (Option Str)) := fun a b =>
  match a, b with
  | .error x, .error y => decidable_of_iff (x = y) (by simp)
  | .ok x, .ok y => decidable_of_iff (x = y) (by simp)
  | .error x, .ok y => isFalse (by simp)
  | .ok x, .error y => isFalse (by simp)

instance : DecidableEq RunCmdOut := fun a b =>
  decidable_of_iff (a.newCount = b.newCount ∧ a.written = b.written ∧ a.result = b.result)
    (by cases a; cases b; simp_all)

/-- Embeds `run_cmd(cmd, block)` (src/sublimejdb.py lines 471-497). -/
def runCmd (running : Bool) (count : Nat) (lastAt : Nat → Str) (cmd : Str)
    (block : Bool) : RunCmdOut :=
  if !running then ⟨count, [], .error (.notRunning cmd)⟩
  else
    let cmdN := cmd ++ ['\n']
    if block then
      let c := count + 1
      let tag := tagOf c
      let i := pollFrom lastAt tag 0
      if timeoutcount ≤ i then ⟨c, [cmdN], .error (.timeout cmdN 10)⟩
      else ⟨c, [cmdN], .ok (some ((lastAt i).drop tag.length))⟩
    else ⟨count, [cmdN], .ok none⟩

/-! ## Stream Tokenizer: `jdboutput` (src/sublimejdb.py lines 547-615)

One iteration of the byte loop, for one decoded character.  The globals it
touches (`count`, `jdb_loaded`, `jdb_lastresult`, `jdb_run_status`) and the
two thread-local buffers (`current_line`, `prev_lines`) form `TkState`;
UI calls and the scheduled `update_cursor` are returned as effects. -/

/-- Run status values stored in the global `jdb_run_status` (`None` is
modelled by `Option`). -/
inductive RunStatus
  | running
  | stopped
deriving DecidableEq

/-- Tokenizer-visible state: the globals plus the per-thread line buffers. -/
structure TkState where
  jdb_loaded : Bool
  current_line : Str
  prev_lines : Str
  count : Nat
  jdb_lastresult : Str
  jdb_run_status : Option RunStatus
deriving DecidableEq

/-- Side effects of one tokenizer step: a console log line, or the
`sublime.set_timeout(update_cursor, 0)` call. -/
inductive TkEffect
  | console (s : Str)
  | scheduleUpdateCursor
deriving DecidableEq

/-- The compiled pattern `^Thread-\d+\[\d+\]$` applied with `re.match` to
`current_line` (ASCII-digit fragment of Python's `\d`). -/
def threadOutMatch (l : Str) : Bool :=
  if (strLC "Thread-").isPrefixOf l then
    let r := l.drop 7
    let d1 := r.takeWhile Char.isDigit
    let r1 := r.dropWhile Char.isDigit
    !d1.isEmpty &&
      (match r1 with
       | '[' :: r2 =>
         let d2 := r2.takeWhile Char.isDigit
         let r3 := r2.dropWhile Char.isDigit
         !d2.isEmpty && r3 == ([']'] : Str)
       | _ => false)
  else false

/-- One iteration of the `jdboutput` while-loop for a decoded character `c`
(src/sublimejdb.py lines 562-599). -/
def processChar (st : TkState) (c : Char) : TkState × List TkEffect :=
  let countstr := tagOf st.count
  if c == '>' && st.current_line.isEmpty then
    if st.jdb_loaded then
      ({ st with jdb_lastresult := countstr ++ st.prev_lines,
                 current_line := [], prev_lines := [] },
       [TkEffect.console (strLC "<-" ++ st.prev_lines ++ ['\n'])])
    else
      ({ st with current_line := [], prev_lines := [], jdb_loaded := true }, [])
  else
    let st1 :=
      if c == '\n' then
        let pl := if st.prev_lines.length > 0 then st.prev_lines ++ ['\n'] else st.prev_lines
        { st with prev_lines := pl ++ st.current_line, current_line := [] }
      else
        { st with current_line := st.current_line ++ [c] }
    if threadOutMatch st1.current_line then
      let unsol := st1.prev_lines ++ st1.current_line
      if st1.jdb_run_status == some RunStatus.running then
        ({ st1 with jdb_run_status := some RunStatus.stopped,
                    current_line := [], prev_lines := [] },
         [TkEffect.console (strLC "<-" ++ unsol ++ ['\n']), TkEffect.scheduleUpdateCursor])
      else
        ({ st1 with jdb_lastresult := countstr ++ st1.prev_lines,
                    current_line := [], prev_lines := [] },
         [TkEffect.console (strLC "<-" ++ unsol ++ ['\n'])])
    else (st1, [])

/-! ## Breakpoint Registry (src/sublimejdb.py lines 324-435)

`cwd` is `os.getcwd()`; `srcMarker` is the `source_path_prefix` setting
(default `"/src/main/java/"`); `replies` is the subprocess reply oracle
standing for the blocking `run_cmd` return values. -/

/-- A `JDBBreakpoint` (lines 324-363): `original_filename` holds
`normalize(filename)` as set by the constructor. -/
structure JDBBp where
  original_filename : Str
  original_line : Nat
deriving DecidableEq

/-- The `filename` property (lines 338-340): `normalize(self.original_filename)`. -/
def bpFilename (cwd : Str) (b : JDBBp) : Str := normalizeS cwd b.original_filename

/-- The `JDBBreakpoint` constructor's field initialisation (lines 328-332);
the constructor's `add()` call is accounted for at the `toggle_breakpoint`
call site. -/
def mkBp (cwd : Str) (filename : Str) (line : Nat) : JDBBp :=
  ⟨normalizeS cwd filename, line⟩

/-- `determine_class_from_file` (lines 961-969). -/
def determine_class_from_file (srcMarker filename : Str) : Str :=
  let c1 := pyReplace (strLC "\\") (strLC "/") filename
  let c2 := pySliceFrom c1 (pyFind c1 srcMarker + (srcMarker.length : Int))
  let c3 := pyReplace (strLC "/") (strLC ".") c2
  pyReplace (strLC ".java") [] c3

/-- The insertion command text built by `JDBBreakpoint.add` (lines 342-347):
`"stop at <class>:<line>"`. -/
def bpAddCmd (srcMarker : Str) (b : JDBBp) : Str :=
  strLC "stop at " ++ determine_class_from_file srcMarker b.original_filename
    ++ ':' :: natChars b.original_line

/-- The removal command text built by `JDBBreakpoint.remove` (lines 352-357):
`"clear <class>:<line>"`. -/
def bpClearCmd (srcMarker : Str) (b : JDBBp) : Str :=
  strLC "clear " ++ determine_class_from_file srcMarker b.original_filename
    ++ ':' :: natChars b.original_line

/-- `JDBBreakpoint.add` (lines 342-350): issues the insertion command iff the
session is running; returns (commands issued, error popups). -/
def bpAdd (running : Bool) (srcMarker : Str) (replies : Str → Str) (b : JDBBp) :
    List Str × List Str :=
  if running then
    let cmd := bpAddCmd srcMarker b
    let out := replies cmd
    if listContains out (strLC "is not a valid class name") ||
        listContains out (strLC "Deferring breakpoint") then
      ([cmd], [strLC "Cannot locate class"])
    else ([cmd], [])
  else ([], [])

/-- `JDBBreakpoint.remove` (lines 352-360). -/
def bpRemove (running : Bool) (srcMarker : Str) (replies : Str → Str) (b : JDBBp) :
    List Str × List Str :=
  if running then
    let cmd := bpClearCmd srcMarker b
    let out := replies cmd
    if listContains out (strLC "Not found:") then
      ([cmd], [strLC "Cannot locate breakpoint"])
    else ([cmd], [])
  else ([], [])

/-- The predicate of `find_breakpoint`'s loop (lines 402-407). -/
def bpMatches (cwd : Str) (filename : Str) (line : Nat) (b : JDBBp) : Bool :=
  bpFilename cwd b == normalizeS cwd filename && b.original_line == line

/-- `JDBBreakpointView.find_breakpoint` (lines 402-407). -/
def find_breakpoint (cwd : Str) (bps : List JDBBp) (filename : Str) (line : Nat) :
    Option JDBBp :=
  bps.find? (bpMatches cwd filename line)

/-- Python string `<` (code point lexicographic), for the sort key. -/
def lcLt : Str → Str → Bool
  | [], [] => false
  | [], _ :: _ => true
  | _ :: _, [] => false
  | a :: as2, b :: bs => if a = b then lcLt as2 bs else decide (a < b)

/-- The `key=lambda b: (b.filename, b.line)` comparison of `update_view`
(line 431). -/
def bpKeyLe (cwd : Str) (a b : JDBBp) : Bool :=
  if bpFilename cwd a == bpFilename cwd b then
    decide (a.original_line ≤ b.original_line)
  else lcLt (bpFilename cwd a) (bpFilename cwd b)

/-- `JDBBreakpointView.update_view` (lines 426-435): sorts the registry by
`(filename, line)` when the view is open (repainting is a UI effect);
a closed view returns immediately, leaving the list order untouched. -/
def update_view (isOpen : Bool) (cwd : Str) (bps : List JDBBp) : List JDBBp :=
  if isOpen then bps.mergeSort (bpKeyLe cwd) else bps

/-- `JDBBreakpointView.toggle_breakpoint` (lines 410-417); returns the new
registry and the commands written to the subprocess. -/
def toggle_breakpoint (isOpen running : Bool) (cwd srcMarker : Str)
    (replies : Str → Str) (bps : List JDBBp) (filename : Str) (line : Nat) :
    List JDBBp × List Str :=
  match find_breakpoint cwd bps filename line with
  | some b =>
      let eff := bpRemove running srcMarker replies b
      (update_view isOpen cwd (bps.erase b), eff.1)
  | none =>
      let nb := mkBp cwd filename line
      let eff := bpAdd running srcMarker replies nb
      (update_view isOpen cwd (bps ++ [nb]), eff.1)

/-- `JDBBreakpointView.sync_breakpoints` (lines 419-424): replays each held
breakpoint's insertion command in registry list order, then `update_view`. -/
def sync_breakpoints (isOpen running : Bool) (cwd srcMarker : Str)
    (replies : Str → Str) (bps : List JDBBp) : List JDBBp × List Str :=
  (update_view isOpen cwd bps,
   (bps.map (fun b => (bpAdd running srcMarker replies b).1)).flatten)

/-! ## Session State Machine commands (src/sublimejdb.py lines 637-811) -/

/-- Session-level state touched by the continue/step commands:
`jdb_run_status`, the cursor globals, and the variables view content
(cleared by `clear_view`). -/
structure SessState where
  jdb_run_status : Option RunStatus
  jdb_cursor : Str
  jdb_cursor_position : Nat
  varList : List Str
deriving DecidableEq

/-- `go_to_run_state` (lines 637-643): clears the variables view and forces
`jdb_run_status = "running"`; it does not touch the cursor globals. -/
def go_to_run_state (st : SessState) : SessState :=
  { st with varList := [], jdb_run_status := some RunStatus.running }

/-- `JdbContinue.run` (lines 738-743): zeroes the cursor position, forces the
run state, then sends `"cont"` fire-and-forget. -/
def jdbContinue_run (running : Bool) (count : Nat) (lastAt : Nat → Str)
    (st : SessState) : SessState × RunCmdOut :=
  (go_to_run_state { st with jdb_cursor_position := 0 },
   runCmd running count lastAt (strLC "cont") false)

/-- `JdbStepOver.run` (lines 773-775): forces the run state and sends
`"next"` fire-and-forget; the cursor is not cleared. -/
def jdbStepOver_run (running : Bool) (count : Nat) (lastAt : Nat → Str)
    (st : SessState) : SessState × RunCmdOut :=
  (go_to_run_state st, runCmd running count lastAt (strLC "next") false)

/-- `JdbStepInto.run` (lines 788-790). -/
def jdbStepInto_run (running : Bool) (count : Nat) (lastAt : Nat → Str)
    (st : SessState) : SessState × RunCmdOut :=
  (go_to_run_state st, runCmd running count lastAt (strLC "step") false)

/-- `JdbStepOut.run` (lines 803-805). -/
def jdbStepOut_run (running : Bool) (count : Nat) (lastAt : Nat → Str)
    (st : SessState) : SessState × RunCmdOut :=
  (go_to_run_state st, runCmd running count lastAt (strLC "step up") false)

/-! ## Variables view (src/sublimejdb.py lines 82-83, 261-308) -/

/-- `JDBView.should_update` (lines 82-83). -/
def should_update (isOpen running : Bool) (status : Option RunStatus) : Bool :=
  isOpen && running && (status == some RunStatus.stopped)

/-- A `JDBVariable` as built by `create_variable` (lines 288-290): name/value
from `exp.split(" = ")` (`vp[1]` is partial in Python; modelled via `getD`,
unreachable for well-formed replies). -/
structure JDBVar where
  name : Str
  value : Str
deriving DecidableEq

/-- `JDBVariablesView.create_variable` (lines 288-290). -/
def create_variable (exp : Str) : JDBVar :=
  let parts := pySplitStr (strLC " = ") exp
  ⟨parts.getD 0 [], parts.getD 1 []⟩

/-- `JDBVariablesView.update_variables` (lines 296-308): returns the view's
new `variables` list and the commands issued through `run_cmd` (the reply
oracle stands for the subprocess; `clear_view` runs before `"locals"`). -/
def update_variables (isOpen running : Bool) (status : Option RunStatus)
    (replies : Str → Str) (vars0 : List JDBVar) : List JDBVar × List Str :=
  if !(should_update isOpen running status) then (vars0, [])
  else
    let result := replies (strLC "locals")
    if !(listContains result (strLC "No local variables")) then
      let step := fun (acc : List JDBVar × List Str) (ll : Str) =>
        if !(listContains ll (strLC "Method arguments:")) &&
            !(listContains ll (strLC "Local variables:")) then
          let parts := pySplitStr (strLC " = ") ll
          let cmd := strLC "print " ++ parts.getD 0 []
          (acc.1 ++ [create_variable (replies cmd)], acc.2 ++ [cmd])
        else acc
      (pySplit '\n' result).foldl step ([], [strLC "locals"])
    else ([], [strLC "locals"])

/-! ## Process Supervisor: `JdbLaunch.run` (src/sublimejdb.py lines 650-725) -/

/-- The rejection/error outcomes of a launch attempt (`sublime.error_message`
or `sublime.status_message` popups in the source). -/
inductive LaunchErr
  | configuration
  | pathNotFound
  | alreadyRunning
  | didNotLoad
deriving DecidableEq

/-- Session state as seen by `JdbLaunch.run`: whether a live process exists
(`jdb_process is not None and poll() is None`), the run status, the cursor
globals, the shutdown flag and the breakpoint registry. -/
structure LaunchState where
  processActive : Bool
  jdb_run_status : Option RunStatus
  jdb_cursor : Str
  jdb_cursor_position : Nat
  jdb_shutting_down : Bool
  breakpoints : List JDBBp
deriving DecidableEq

/-- Outcome of `JdbLaunch.run`: resulting state, whether `subprocess.Popen`
was reached, the rejection (if any) and the subprocess stdin writes. -/
structure LaunchOut where
  state : LaunchState
  spawned : Bool
  error : Option LaunchErr
  written : List Str
deriving DecidableEq

/-- `JdbLaunch.run` (lines 650-725).  `commandline`/`workingdir` are the
settings values (`get_setting("commandline")` defaults to `None`,
`get_setting("workingdir")` to `"/tmp"`), `dirExists` the `os.path.exists`
oracle, `loads` the `wait_until_loaded` oracle. -/
def jdbLaunch_run (commandline : Option Str) (workingdir : Str) (dirExists : Bool)
    (loads : Bool) (isOpen : Bool) (cwd srcMarker : Str) (replies : Str → Str)
    (st : LaunchState) : LaunchOut :=
  if !st.processActive then
    if commandline == some (strLC "notset") || workingdir == strLC "notset" then
      ⟨st, false, some LaunchErr.configuration, []⟩
    else if !dirExists then
      ⟨st, false, some LaunchErr.pathNotFound, []⟩
    else
      let st1 := { st with processActive := true, jdb_shutting_down := false }
      if !loads then
        ⟨st1, true, some LaunchErr.didNotLoad, [strLC "quit" ++ ['\n']]⟩
      else
        let st2 := { st1 with jdb_run_status := some RunStatus.running }
        let sync := sync_breakpoints isOpen true cwd srcMarker replies st2.breakpoints
        ⟨{ st2 with breakpoints := sync.1 }, true, none, sync.2⟩
  else ⟨st, false, some LaunchErr.alreadyRunning, []⟩

/-! ## Helper lemmas -/

lemma natChars_one : natChars 1 = ['1'] := by simp [natChars, digitChar]

lemma natChars_five : natChars 5 = ['5'] := by simp [natChars, digitChar]

lemma tagOf_one : tagOf 1 = ['1', '^'] := by rw [tagOf, natChars_one]; rfl

lemma tagOf_five : tagOf 5 = ['5', '^'] := by rw [tagOf, natChars_five]; rfl

/-- The tokenizer never clears `jdb_loaded`: once the first prompt marker has
been consumed, every later step sees a loaded session. -/
lemma processChar_loaded_mono (st : TkState) (c : Char) (h : st.jdb_loaded = true) :
    (processChar st c).1.jdb_loaded = true := by
  rw [processChar]
  by_cases h1 : (c == '>' && st.current_line.isEmpty) = true
  · simp only [h1, if_true, h, ite_true]
  · simp only [Bool.not_eq_true] at h1
    simp only [h1, Bool.false_eq_true, if_false]
    by_cases hn : (c == '\n') = true <;>
      simp only [hn, Bool.false_eq_true, if_true, if_false] <;>
      split <;> (try split) <;> simpa using h

/-- If the polling loop of `run_cmd` exits below the budget, the slot it saw
matched the tag. -/
lemma pollFrom_match (lastAt : Nat → Str) (tag : Str) (i : Nat)
    (h : pollFrom lastAt tag i < timeoutcount) :
    startswith (lastAt (pollFrom lastAt tag i)) tag = true := by
  induction i using pollFrom.induct lastAt tag with
  | case1 i hc =>
      rw [pollFrom, if_pos hc] at h ⊢
      rcases Bool.or_eq_true_iff.mp hc with h1 | h2
      · exact h1
      · simp only [decide_eq_true_eq] at h2; omega
  | case2 i hc ih =>
      rw [pollFrom, if_neg hc] at h ⊢
      exact ih h

/-- If no polled value ever matches, the loop runs to the full budget. -/
lemma pollFrom_no_match (lastAt : Nat → Str) (tag : Str)
    (hno : ∀ i, startswith (lastAt i) tag = false) :
    ∀ i, i ≤ timeoutcount → pollFrom lastAt tag i = timeoutcount := by
  intro i
  induction i using pollFrom.induct lastAt tag with
  | case1 i hc =>
      intro hle
      rw [pollFrom, if_pos hc]
      rcases Bool.or_eq_true_iff.mp hc with h1 | h2
      · rw [hno i] at h1; cases h1
      · simp only [decide_eq_true_eq] at h2; omega
  | case2 i hc ih =>
      intro hle
      rw [pollFrom, if_neg hc]
      refine ih ?_
      have : ¬ timeoutcount ≤ i := by
        intro hx
        exact hc (by simp [hx])
      omega

lemma pollFrom_zero_of_match (lastAt : Nat → Str) (tag : Str)
    (h : startswith (lastAt 0) tag = true) : pollFrom lastAt tag 0 = 0 := by
  rw [pollFrom]
  simp [h]

/-- A blocking `run_cmd` always advances the sequence counter by exactly one. -/
lemma runCmd_block_newCount (count : Nat) (lastAt : Nat → Str) (cmd : Str) :
    (runCmd true count lastAt cmd true).newCount = count + 1 := by
  rw [runCmd]
  simp only [Bool.not_true, Bool.false_eq_true, if_false, if_true]
  split <;> rfl

/-- A blocking `run_cmd` whose tag is matched at the very first poll returns
the stored reply with the tag stripped. -/
lemma runCmd_block_of_match0 (count : Nat) (lastAt : Nat → Str) (cmd : Str)
    (h : startswith (lastAt 0) (tagOf (count + 1)) = true) :
    runCmd true count lastAt cmd true
      = ⟨count + 1, [cmd ++ ['\n']],
         Except.ok (some ((lastAt 0).drop (tagOf (count + 1)).length))⟩ := by
  rw [runCmd]
  simp only [Bool.not_true, Bool.false_eq_true, if_false, if_true]
  rw [pollFrom_zero_of_match lastAt _ h]
  simp [timeoutcount]

/-- A blocking `run_cmd` that never sees its tag raises the timeout error
carrying the newline-terminated command text and 10 (seconds). -/
lemma runCmd_block_timeout (count : Nat) (lastAt : Nat → Str) (cmd : Str)
    (hno : ∀ i, startswith (lastAt i) (tagOf (count + 1)) = false) :
    runCmd true count lastAt cmd true
      = ⟨count + 1, [cmd ++ ['\n']],
         Except.error (JdbErr.timeout (cmd ++ ['\n']) 10)⟩ := by
  rw [runCmd]
  simp only [Bool.not_true, Bool.false_eq_true, if_false, if_true]
  rw [pollFrom_no_match lastAt _ hno 0 (by simp [timeoutcount])]
  simp

/-- With the session running, `JDBBreakpoint.add` issues exactly its
insertion command, whatever the subprocess replies. -/
lemma bpAdd_cmds (srcMarker : Str) (replies : Str → Str) (b : JDBBp) :
    (bpAdd true srcMarker replies b).1 = [bpAddCmd srcMarker b] := by
  rw [bpAdd]
  simp only [if_true]
  split <;> rfl

/-- With the session running, `JDBBreakpoint.remove` issues exactly its
removal command. -/
lemma bpRemove_cmds (srcMarker : Str) (replies : Str → Str) (b : JDBBp) :
    (bpRemove true srcMarker replies b).1 = [bpClearCmd srcMarker b] := by
  rw [bpRemove]
  simp only [if_true]
  split <;> rfl

lemma flatten_map_singleton {α β : Type} (f : α → β) (l : List α) :
    (l.map (fun a => [f a])).flatten = l.map f := by
  induction l with
  | nil => rfl
  | cons a t ih => simp [ih]

/-! ## Claims -/

/-- C4: For every sequence of blocking send calls issued one at a time, the
sequence counter strictly increases by one per blocking call, and each call
returns exactly the stored reply whose tag is the exact numeric prefix
`"<id>^"` for the id that call was assigned — a reply is never matched by
content heuristics or accepted with a different id's tag. -/
theorem C4_exact_reply_correlation (count : Nat) (cmd : Str) (lastAt : Nat → Str) :
    (runCmd true count lastAt cmd true).newCount = count + 1 ∧
    (∀ r, (runCmd true count lastAt cmd true).result = Except.ok (some r) →
       ∃ i, i < timeoutcount ∧ lastAt i = tagOf (count + 1) ++ r) ∧
    (∀ m body, m ≠ count + 1 →
       startswith (tagOf m ++ body) (tagOf (count + 1)) = false) := by
  refine ⟨runCmd_block_newCount count lastAt cmd, ?_, ?_⟩
  · intro r hr
    rw [runCmd] at hr
    simp only [Bool.not_true, Bool.false_eq_true, if_false, if_true] at hr
    by_cases ht : timeoutcount ≤ pollFrom lastAt (tagOf (count + 1)) 0
    · rw [if_pos ht] at hr
      cases hr
    · rw [if_neg ht] at hr
      have hlt : pollFrom lastAt (tagOf (count + 1)) 0 < timeoutcount := by omega
      have hm := pollFrom_match lastAt (tagOf (count + 1)) 0 hlt
      refine ⟨pollFrom lastAt (tagOf (count + 1)) 0, hlt, ?_⟩
      have := startswith_append_drop hm
      simp only [Except.ok.injEq, Option.some.injEq] at hr
      rw [← hr]
      exact this
  · intro m body hm
    by_contra hx
    simp only [Bool.not_eq_false] at hx
    rw [startswith, List.isPrefixOf_iff_prefix] at hx
    exact hm ((tagOf_pre_iff _ _ _).mp hx).symm

/-- C4 witness: a blocking call from counter 0 with the matching tagged reply
stored advances the counter to 1. -/
theorem C4_exact_reply_correlation_witness :
    (runCmd true 0 (fun _ => tagOf 1 ++ strLC "ok") (strLC "where") true).newCount = 0 + 1 :=
  (C4_exact_reply_correlation 0 (strLC "where") (fun _ => tagOf 1 ++ strLC "ok")).1

/-- Modelled from the spec: §4.3 and §8 describe the reply wait as running
"until ... a timeout (default 10 seconds, configurable) elapses".  No
configurable timeout exists in src/ — `run_cmd` hard-codes `timeout = 10` —
so the configured lookup (a `"timeout"` setting with default 10) exists only
as this spec-side definition, for comparison with the source. -/
def specConfiguredTimeout (settings : List (Str × Nat)) : Nat :=
  match settings.find? (fun kv => kv.1 == strLC "timeout") with
  | some kv => kv.2
  | none => 10

/-- C5 counterexample: with a configured timeout of 20 seconds, the engine
still times out carrying 10 seconds — the timeout is hard-coded, not
configurable (and the error text carries `cmd + "\n"`, the newline-terminated
command). -/
theorem C5_counterexample :
    (runCmd true 0 (fun _ => []) (strLC "locals") true).result
        = Except.error (JdbErr.timeout (strLC "locals" ++ ['\n']) 10) ∧
    specConfiguredTimeout [(strLC "timeout", 20)] = 20 ∧
    (10 : Nat) ≠ 20 := by
  refine ⟨?_, by rfl, by omega⟩
  rw [runCmd_block_timeout 0 (fun _ => []) (strLC "locals")
    (fun i => by rw [tagOf_one]; rfl)]

/-- C5 (amended): for every blocking send whose matching reply never arrives,
the call raises a `ValueError` after the fixed — not configurable — 10-second
budget, carrying the newline-terminated command text, and the sequence counter
remains advanced: the allocated id is not reused, a later blocking command
gets the next id. -/
theorem C5_timeout_advances_counter (count : Nat) (cmd : Str) (lastAt : Nat → Str)
    (hno : ∀ i, startswith (lastAt i) (tagOf (count + 1)) = false) :
    runCmd true count lastAt cmd true
      = ⟨count + 1, [cmd ++ ['\n']],
         Except.error (JdbErr.timeout (cmd ++ ['\n']) 10)⟩ ∧
    (∀ (lastAt2 : Nat → Str) (cmd2 : Str),
       (runCmd true (count + 1) lastAt2 cmd2 true).newCount = count + 2) :=
  ⟨runCmd_block_timeout count lastAt cmd hno,
   fun lastAt2 cmd2 => runCmd_block_newCount (count + 1) lastAt2 cmd2⟩

/-- C5 witness: a reply slot holding `"x"` never matches tag `"1^"`, so the
call from counter 0 times out with the counter advanced to 1. -/
theorem C5_timeout_advances_counter_witness :
    (runCmd true 0 (fun _ => ['x']) (strLC "where") true).newCount = 0 + 1 := by
  rw [(C5_timeout_advances_counter 0 (strLC "where") (fun _ => ['x'])
    (fun i => by rw [tagOf_one]; rfl)).1]

/-- C6: a `'>'` read while the current-line buffer is empty is the prompt
marker: the first one only flips the session to loaded and discards the
banner without emitting a reply; every later one (the session stays loaded
forever after) closes the pending block as a reply tagged with the current
expected sequence number and resets both buffers. -/
theorem C6_prompt_marker (st : TkState) (h : st.current_line = []) :
    (st.jdb_loaded = false →
       (processChar st '>').1.jdb_loaded = true ∧
       (processChar st '>').1.current_line = [] ∧
       (processChar st '>').1.prev_lines = [] ∧
       (processChar st '>').1.jdb_lastresult = st.jdb_lastresult ∧
       (processChar st '>').1.jdb_run_status = st.jdb_run_status ∧
       (processChar st '>').2 = []) ∧
    (st.jdb_loaded = true →
       (processChar st '>').1.jdb_lastresult = tagOf st.count ++ st.prev_lines ∧
       (processChar st '>').1.current_line = [] ∧
       (processChar st '>').1.prev_lines = [] ∧
       (processChar st '>').1.jdb_loaded = true ∧
       (processChar st '>').1.jdb_run_status = st.jdb_run_status ∧
       (processChar st '>').2
         = [TkEffect.console (strLC "<-" ++ st.prev_lines ++ ['\n'])]) ∧
    (∀ (st2 : TkState) (c : Char), st2.jdb_loaded = true →
       (processChar st2 c).1.jdb_loaded = true) := by
  have hc : ('>' == '>' && st.current_line.isEmpty) = true := by rw [h]; rfl
  refine ⟨fun hl => ?_, fun hl => ?_, fun st2 c h2 => processChar_loaded_mono st2 c h2⟩
  · simp [processChar, h, hl]
  · simp [processChar, h, hl]

/-- C6 witness: a loaded tokenizer state with pending block `"done"` and an
empty current line, at counter 3. -/
theorem C6_prompt_marker_witness :
    (⟨true, [], strLC "done", 3, [], some RunStatus.stopped⟩ : TkState).current_line = []
      ∧ (processChar ⟨true, [], strLC "done", 3, [], some RunStatus.stopped⟩ '>').1.jdb_loaded
          = true :=
  ⟨rfl, ((C6_prompt_marker ⟨true, [], strLC "done", 3, [], some RunStatus.stopped⟩ rfl).2.1
    rfl).2.2.2.1⟩

/-- C1 counterexample: a unit matching the unsolicited-stop pattern that
arrives while `run_status` is `stopped` is NOT informational only — the
tokenizer stores the accumulated block as the current command's tagged reply
(`jdb_lastresult = countstr + prev_lines`, line 597), so it satisfies and
completes an outstanding blocking send (here: the command with id 5 receives
`"reply-body"`). -/
theorem C1_counterexample :
    (processChar ⟨true, strLC "Thread-1[1", strLC "reply-body", 5, [],
        some RunStatus.stopped⟩ ']').1.jdb_run_status = some RunStatus.stopped ∧
    (processChar ⟨true, strLC "Thread-1[1", strLC "reply-body", 5, [],
        some RunStatus.stopped⟩ ']').1.jdb_lastresult = tagOf 5 ++ strLC "reply-body" ∧
    startswith ((processChar ⟨true, strLC "Thread-1[1", strLC "reply-body", 5, [],
        some RunStatus.stopped⟩ ']').1.jdb_lastresult) (tagOf 5) = true ∧
    (runCmd true 4
        (fun _ => (processChar ⟨true, strLC "Thread-1[1", strLC "reply-body", 5, [],
          some RunStatus.stopped⟩ ']').1.jdb_lastresult)
        (strLC "where") true).result
      = Except.ok (some (strLC "reply-body")) := by
  have hpc : (processChar ⟨true, strLC "Thread-1[1", strLC "reply-body", 5, [],
      some RunStatus.stopped⟩ ']').1.jdb_lastresult = tagOf 5 ++ strLC "reply-body" := by
    rw [processChar]
    simp only [tagOf_five]
    decide
  have hsw : startswith (tagOf 5 ++ strLC "reply-body") (tagOf 5) = true := by
    rw [tagOf_five]; decide
  refine ⟨?_, hpc, ?_, ?_⟩
  · rw [processChar]; decide
  · rw [hpc]; exact hsw
  · rw [runCmd_block_of_match0 4 _ (strLC "where") (by rw [hpc]; exact hsw)]
    simp only [Except.ok.injEq, Option.some.injEq]
    rw [hpc, tagOf_five]
    decide

/-- C1 (amended): a unit matching the unsolicited-stop pattern arriving while
`run_status` is `running` is published as a state-machine event — transition
to `stopped`, `update_cursor` scheduled — and is not stored as any command's
reply (`jdb_lastresult` untouched).  Arriving while `run_status` is anything
else (e.g. `stopped`), it triggers no transition but IS stored as the current
command's tagged reply, so it does complete an outstanding blocking send. -/
theorem C1_event_unit_dispatch (st : TkState) (c : Char)
    (hng : (c == '>' && st.current_line.isEmpty) = false)
    (hnl : (c == '\n') = false)
    (hm : threadOutMatch (st.current_line ++ [c]) = true) :
    (st.jdb_run_status = some RunStatus.running →
       (processChar st c).1.jdb_run_status = some RunStatus.stopped ∧
       (processChar st c).1.jdb_lastresult = st.jdb_lastresult ∧
       TkEffect.scheduleUpdateCursor ∈ (processChar st c).2) ∧
    (st.jdb_run_status ≠ some RunStatus.running →
       (processChar st c).1.jdb_run_status = st.jdb_run_status ∧
       (processChar st c).1.jdb_lastresult = tagOf st.count ++ st.prev_lines ∧
       startswith ((processChar st c).1.jdb_lastresult) (tagOf st.count) = true) := by
  constructor
  · intro hr
    simp [processChar, hng, hnl, hm, hr]
  · intro hr
    have hr2 : (st.jdb_run_status == some RunStatus.running) = false := by
      simpa using hr
    refine ⟨?_, ?_, ?_⟩
    · simp [processChar, hng, hnl, hm, hr2]
    · simp [processChar, hng, hnl, hm, hr2]
    · have : (processChar st c).1.jdb_lastresult = tagOf st.count ++ st.prev_lines := by
        simp [processChar, hng, hnl, hm, hr2]
      rw [this]
      exact (startswith_tag_iff st.count st.count st.prev_lines).mpr rfl

/-- C1 witness: the running-state case at a concrete breakpoint hit
(`current_line = "Thread-1[1"`, next char `']'`). -/
theorem C1_event_unit_dispatch_witness :
    (processChar ⟨true, strLC "Thread-1[1", strLC "hit", 2, strLC "old",
        some RunStatus.running⟩ ']').1.jdb_run_status = some RunStatus.stopped :=
  ((C1_event_unit_dispatch ⟨true, strLC "Thread-1[1", strLC "hit", 2, strLC "old",
      some RunStatus.running⟩ ']' (by decide) (by decide) (by decide)).1 rfl).1

/-- C3 counterexample: step-over from a stopped state at cursor
`("/p/A.java", 7)` forces `run_status = "running"` but leaves the cursor
set — the cursor is non-empty while the status is `running`, violating the
claimed iff-invariant and the claim that every operation forcing `running`
clears the cursor. -/
theorem C3_counterexample :
    (jdbStepOver_run true 0 (fun _ => []) ⟨some RunStatus.stopped, strLC "/p/A.java", 7, []⟩).1
      = ⟨some RunStatus.running, strLC "/p/A.java", 7, []⟩ ∧
    (strLC "/p/A.java" ≠ [] ∧ (7 : Nat) ≠ 0) := by
  exact ⟨rfl, by decide, by omega⟩

/-- C3 (amended): `continue` clears the cursor position and forces
`run_status = "running"`, but the step operations (step-over, step-into,
step-out) force `running` while leaving the cursor unchanged — so the cursor
may be non-empty while `run_status = "running"`, and the non-empty-iff-stopped
invariant does not hold while a step is in flight. -/
theorem C3_run_transitions_cursor (st : SessState) (count : Nat) (lastAt : Nat → Str) :
    ((jdbContinue_run true count lastAt st).1.jdb_cursor_position = 0 ∧
     (jdbContinue_run true count lastAt st).1.jdb_run_status = some RunStatus.running ∧
     (jdbContinue_run true count lastAt st).2.written = [strLC "cont" ++ ['\n']]) ∧
    ((jdbStepOver_run true count lastAt st).1.jdb_cursor_position = st.jdb_cursor_position ∧
     (jdbStepOver_run true count lastAt st).1.jdb_cursor = st.jdb_cursor ∧
     (jdbStepOver_run true count lastAt st).1.jdb_run_status = some RunStatus.running ∧
     (jdbStepOver_run true count lastAt st).2.written = [strLC "next" ++ ['\n']]) ∧
    ((jdbStepInto_run true count lastAt st).1.jdb_cursor_position = st.jdb_cursor_position ∧
     (jdbStepInto_run true count lastAt st).1.jdb_cursor = st.jdb_cursor ∧
     (jdbStepInto_run true count lastAt st).1.jdb_run_status = some RunStatus.running ∧
     (jdbStepInto_run true count lastAt st).2.written = [strLC "step" ++ ['\n']]) ∧
    ((jdbStepOut_run true count lastAt st).1.jdb_cursor_position = st.jdb_cursor_position ∧
     (jdbStepOut_run true count lastAt st).1.jdb_cursor = st.jdb_cursor ∧
     (jdbStepOut_run true count lastAt st).1.jdb_run_status = some RunStatus.running ∧
     (jdbStepOut_run true count lastAt st).2.written = [strLC "step up" ++ ['\n']]) :=
  ⟨⟨rfl, rfl, rfl⟩, ⟨rfl, rfl, rfl, rfl⟩, ⟨rfl, rfl, rfl, rfl⟩, ⟨rfl, rfl, rfl, rfl⟩⟩

/-- C9: whenever `run_status` is not `stopped` or the session is not running,
the read-locals operation (`update_variables`) is a no-op — early return on
`should_update`, so it raises nothing, issues no command and leaves the view
state unchanged. -/
theorem C9_read_locals_noop (isOpen running : Bool) (status : Option RunStatus)
    (replies : Str → Str) (vars0 : List JDBVar)
    (h : running = false ∨ status ≠ some RunStatus.stopped) :
    update_variables isOpen running status replies vars0 = (vars0, []) := by
  have hg : should_update isOpen running status = false := by
    rw [should_update]
    rcases h with h | h
    · rw [h]; simp
    · have : (status == some RunStatus.stopped) = false := by simpa using h
      rw [this]; simp
  rw [update_variables, hg]
  simp

/-- C9 witness: read-locals while `run_status = "running"` leaves the view
untouched and issues nothing. -/
theorem C9_read_locals_noop_witness :
    update_variables true true (some RunStatus.running) (fun _ => []) [] = ([], []) :=
  C9_read_locals_noop true true (some RunStatus.running) (fun _ => []) []
    (Or.inr (by decide))

/-- C8: `launch` fails without spawning a subprocess, without any session
state change and without writing to the subprocess, whenever the command or
working directory is the `"notset"` sentinel (configuration error), the
working directory does not exist (path-not-found error), or a session is
already active (already-running rejection); the respective rejection is
reported and the session never starts. -/
theorem C8_launch_rejections (commandline : Option Str) (workingdir : Str)
    (dirExists loads isOpen : Bool) (cwd srcMarker : Str) (replies : Str → Str)
    (st : LaunchState)
    (h : st.processActive = true ∨ commandline = some (strLC "notset") ∨
         workingdir = strLC "notset" ∨ dirExists = false) :
    ∃ e, jdbLaunch_run commandline workingdir dirExists loads isOpen cwd srcMarker replies st
          = ⟨st, false, some e, []⟩ ∧
      (st.processActive = true → e = LaunchErr.alreadyRunning) ∧
      (st.processActive = false →
        (commandline = some (strLC "notset") ∨ workingdir = strLC "notset") →
          e = LaunchErr.configuration) ∧
      (st.processActive = false →
        commandline ≠ some (strLC "notset") → workingdir ≠ strLC "notset" →
          e = LaunchErr.pathNotFound) := by
  by_cases hA : st.processActive = true
  · refine ⟨LaunchErr.alreadyRunning, ?_, fun _ => rfl, ?_, ?_⟩
    · rw [jdbLaunch_run, hA]; rfl
    · intro hA2; rw [hA] at hA2; cases hA2
    · intro hA2; rw [hA] at hA2; cases hA2
  · have hA0 : st.processActive = false := by
      cases hx : st.processActive
      · rfl
      · exact absurd hx hA
    by_cases hS : (commandline == some (strLC "notset") || workingdir == strLC "notset") = true
    · refine ⟨LaunchErr.configuration, ?_, fun hx => absurd hx hA, fun _ _ => rfl, ?_⟩
      · rw [jdbLaunch_run, hA0]
        simp only [Bool.not_false, if_true, hS, if_true]
      · intro _ h1 h2
        rcases Bool.or_eq_true_iff.mp hS with hx | hx
        · exact absurd (by simpa using hx) h1
        · exact absurd (by simpa using hx) h2
    · have hD : dirExists = false := by
        rcases h with h | h | h | h
        · exact absurd h hA
        · exact absurd (by simp [h]) hS
        · exact absurd (by simp [h]) hS
        · exact h
      refine ⟨LaunchErr.pathNotFound, ?_, fun hx => absurd hx hA, ?_, fun _ _ _ => rfl⟩
      · rw [jdbLaunch_run, hA0]
        simp only [Bool.not_false, if_true, hS, Bool.false_eq_true, if_false, hD]
      · intro _ hx
        rcases hx with hx | hx
        · exact absurd (by simp [hx]) hS
        · exact absurd (by simp [hx]) hS

/-- C8 witness: launching with the `"notset"` commandline sentinel (inactive
session, existing directory) spawns nothing. -/
theorem C8_launch_rejections_witness :
    (jdbLaunch_run (some (strLC "notset")) (strLC "/w") true true false
        (strLC "/w") (strLC "/p/") (fun _ => [])
        ⟨false, none, [], 0, false, []⟩).spawned = false := by
  obtain ⟨e, heq, -⟩ := C8_launch_rejections (some (strLC "notset")) (strLC "/w")
    true true false (strLC "/w") (strLC "/p/") (fun _ => [])
    ⟨false, none, [], 0, false, []⟩ (Or.inr (Or.inl rfl))
  rw [heq]

/-- With the session running, `sync_breakpoints` issues exactly the insertion
command of each registry entry, in registry list order. -/
lemma sync_cmds_eq (isOpen : Bool) (cwd srcMarker : Str) (replies : Str → Str)
    (bps : List JDBBp) :
    (sync_breakpoints isOpen true cwd srcMarker replies bps).2
      = bps.map (bpAddCmd srcMarker) := by
  rw [sync_breakpoints]
  simp only
  have hmap : bps.map (fun b => (bpAdd true srcMarker replies b).1)
      = bps.map (fun b => [bpAddCmd srcMarker b]) :=
    List.map_congr_left (fun b _ => bpAdd_cmds srcMarker replies b)
  rw [hmap, flatten_map_singleton]

/-- C2 (amended): `sync()` over N registered breakpoints issues exactly N
insertion commands, one per breakpoint, in the registry's current list order
(the `update_view` sort runs only when the breakpoints view is open, and only
after the commands have been issued) — not necessarily in ascending
(path, line) order. -/
theorem C2_sync_registry_order (isOpen : Bool) (cwd srcMarker : Str)
    (replies : Str → Str) (bps : List JDBBp) :
    (sync_breakpoints isOpen true cwd srcMarker replies bps).2
        = bps.map (bpAddCmd srcMarker) ∧
    (sync_breakpoints isOpen true cwd srcMarker replies bps).2.length = bps.length := by
  refine ⟨sync_cmds_eq isOpen cwd srcMarker replies bps, ?_⟩
  rw [sync_cmds_eq isOpen cwd srcMarker replies bps, List.length_map]

/-- C2 counterexample: with the breakpoints view closed, toggling
`/p/B.java:1` then `/p/A.java:1` (before launch) leaves the registry in
insertion order `[B, A]`; `sync()` then issues `"stop at B:1"` before
`"stop at A:1"`, although ascending (path, line) order would put A first
(`A.java < B.java`). -/
theorem C2_counterexample :
    (toggle_breakpoint false false (strLC "/w") (strLC "/p/") (fun _ => [])
        (toggle_breakpoint false false (strLC "/w") (strLC "/p/") (fun _ => [])
          [] (strLC "/p/B.java") 1).1 (strLC "/p/A.java") 1).1
      = [⟨strLC "/p/B.java", 1⟩, ⟨strLC "/p/A.java", 1⟩] ∧
    (sync_breakpoints false true (strLC "/w") (strLC "/p/") (fun _ => [])
        (toggle_breakpoint false false (strLC "/w") (strLC "/p/") (fun _ => [])
          (toggle_breakpoint false false (strLC "/w") (strLC "/p/") (fun _ => [])
            [] (strLC "/p/B.java") 1).1 (strLC "/p/A.java") 1).1).2
      = [strLC "stop at B:1", strLC "stop at A:1"] ∧
    bpKeyLe (strLC "/w") ⟨strLC "/p/A.java", 1⟩ ⟨strLC "/p/B.java", 1⟩ = true ∧
    bpKeyLe (strLC "/w") ⟨strLC "/p/B.java", 1⟩ ⟨strLC "/p/A.java", 1⟩ = false ∧
    [strLC "stop at B:1", strLC "stop at A:1"]
      ≠ [strLC "stop at A:1", strLC "stop at B:1"] := by
  have ht : (toggle_breakpoint false false (strLC "/w") (strLC "/p/") (fun _ => [])
      (toggle_breakpoint false false (strLC "/w") (strLC "/p/") (fun _ => [])
        [] (strLC "/p/B.java") 1).1 (strLC "/p/A.java") 1).1
      = [⟨strLC "/p/B.java", 1⟩, ⟨strLC "/p/A.java", 1⟩] := by decide
  have eB : bpAddCmd (strLC "/p/") ⟨strLC "/p/B.java", 1⟩ = strLC "stop at B:1" := by
    rw [bpAddCmd]
    simp only [determine_class_from_file, natChars_one]
    have r1 : pyReplace (strLC "\\") (strLC "/") (strLC "/p/B.java") = strLC "/p/B.java" := by
      simp [pyReplace, strLC, List.isPrefixOf]
    rw [r1]
    have r2 : pySliceFrom (strLC "/p/B.java")
        (pyFind (strLC "/p/B.java") (strLC "/p/") + ((strLC "/p/").length : Int))
        = strLC "B.java" := by decide
    rw [r2]
    have r3 : pyReplace (strLC "/") (strLC ".") (strLC "B.java") = strLC "B.java" := by
      simp [pyReplace, strLC, List.isPrefixOf]
    rw [r3]
    have r4 : pyReplace (strLC ".java") [] (strLC "B.java") = strLC "B" := by
      simp [pyReplace, strLC, List.isPrefixOf]
    rw [r4]
    decide
  have eA : bpAddCmd (strLC "/p/") ⟨strLC "/p/A.java", 1⟩ = strLC "stop at A:1" := by
    rw [bpAddCmd]
    simp only [determine_class_from_file, natChars_one]
    have r1 : pyReplace (strLC "\\") (strLC "/") (strLC "/p/A.java") = strLC "/p/A.java" := by
      simp [pyReplace, strLC, List.isPrefixOf]
    rw [r1]
    have r2 : pySliceFrom (strLC "/p/A.java")
        (pyFind (strLC "/p/A.java") (strLC "/p/") + ((strLC "/p/").length : Int))
        = strLC "A.java" := by decide
    rw [r2]
    have r3 : pyReplace (strLC "/") (strLC ".") (strLC "A.java") = strLC "A.java" := by
      simp [pyReplace, strLC, List.isPrefixOf]
    rw [r3]
    have r4 : pyReplace (strLC ".java") [] (strLC "A.java") = strLC "A" := by
      simp [pyReplace, strLC, List.isPrefixOf]
    rw [r4]
    decide
  refine ⟨ht, ?_, by decide, by decide, by decide⟩
  rw [ht, sync_cmds_eq]
  simp only [List.map_cons, List.map_nil]
  rw [eB, eA]

/-! ## `normpath` idempotence machinery (for the path-normalization claims) -/

lemma pySplit_ne_nil (sep : Char) (l : Str) : pySplit sep l ≠ [] := by
  cases l with
  | nil => simp [pySplit]
  | cons c rest =>
      rw [pySplit]
      cases h : pySplit sep rest with
      | nil => simp
      | cons a t => by_cases hc : c = sep <;> simp [hc]

lemma pySplit_cons_sep (sep : Char) (l : Str) :
    pySplit sep (sep :: l) = [] :: pySplit sep l := by
  rw [pySplit]
  cases h : pySplit sep l with
  | nil => exact absurd h (pySplit_ne_nil sep l)
  | cons a t => simp

lemma pySplit_no_sep (sep : Char) (c : Str) (h : sep ∉ c) : pySplit sep c = [c] := by
  induction c with
  | nil => rfl
  | cons a t ih =>
      have ha : a ≠ sep := fun hx => h (by simp [hx])
      have ht : sep ∉ t := fun hx => h (by simp [hx])
      rw [pySplit, ih ht]
      simp [ha]

lemma pySplit_append_sep (sep : Char) (c l : Str) (h : sep ∉ c) :
    pySplit sep (c ++ sep :: l) = c :: pySplit sep l := by
  induction c with
  | nil => simpa using pySplit_cons_sep sep l
  | cons a t ih =>
      have ha : a ≠ sep := fun hx => h (by simp [hx])
      have ht : sep ∉ t := fun hx => h (by simp [hx])
      rw [List.cons_append, pySplit, ih ht]
      cases hs : pySplit sep l with
      | nil => exact absurd hs (pySplit_ne_nil sep l)
      | cons b u => simp [ha]

lemma pySplit_mem_no_sep (sep : Char) (l : Str) :
    ∀ x ∈ pySplit sep l, sep ∉ x := by
  induction l with
  | nil => simp [pySplit]
  | cons c rest ih =>
      rw [pySplit]
      cases h : pySplit sep rest with
      | nil => exact absurd h (pySplit_ne_nil sep rest)
      | cons a t =>
          rw [h] at ih
          by_cases hc : c = sep
          · simp only [if_pos hc]
            intro x hx
            rcases List.mem_cons.mp hx with hx | hx
            · subst hx; simp
            · exact ih x hx
          · simp only [if_neg hc]
            intro x hx
            rcases List.mem_cons.mp hx with hx | hx
            · subst hx
              intro hmem
              rcases List.mem_cons.mp hmem with hmem | hmem
              · exact hc hmem.symm
              · exact ih a (by simp) hmem
            · exact ih x (by simp [hx])

lemma pySplit_replicate (sep : Char) (k : Nat) (l : Str) :
    pySplit sep (List.replicate k sep ++ l) = List.replicate k [] ++ pySplit sep l := by
  induction k with
  | zero => simp
  | succ n ih =>
      rw [List.replicate_succ, List.cons_append, pySplit_cons_sep, ih,
        List.replicate_succ, List.cons_append]

lemma pySplit_joinSep (sep : Char) (nc : List Str) (hne : nc ≠ [])
    (hno : ∀ c ∈ nc, sep ∉ c) :
    pySplit sep (joinSep sep nc) = nc := by
  induction nc with
  | nil => exact absurd rfl hne
  | cons x t ih =>
      cases t with
      | nil => exact pySplit_no_sep sep x (hno x (by simp))
      | cons y t2 =>
          have hj : joinSep sep (x :: y :: t2) = x ++ sep :: joinSep sep (y :: t2) := rfl
          rw [hj, pySplit_append_sep sep x _ (hno x (by simp)),
            ih (List.cons_ne_nil y t2) (fun c hc => hno c (by simp [hc]))]

/-- Well-formedness of a processed `normpath` component: nonempty, not `"."`,
slash-free. -/
def goodComp (c : Str) : Prop := c ≠ [] ∧ c ≠ dotC ∧ '/' ∉ c

/-- Invariant of `normpath`'s processed component list: all components good,
`".."` only as a leading run, and no `".."` at all on absolute paths. -/
def npAccInv (hs : Bool) (l : List Str) : Prop :=
  (∀ c ∈ l, goodComp c) ∧
  ∃ j rest, l = List.replicate j ddot ++ rest ∧ ddot ∉ rest ∧ (hs = true → j = 0)

lemma goodComp_ddot : goodComp ddot := ⟨by decide, by decide, by decide⟩

lemma npStep_skip (hs : Bool) (acc : List Str) (comp : Str)
    (h : comp = [] ∨ comp = dotC) : npStep hs acc comp = acc := by
  rcases h with h | h <;> subst h <;> rw [npStep] <;> simp

lemma npStep_plain (hs : Bool) (acc : List Str) (comp : Str)
    (h1 : comp ≠ []) (h2 : comp ≠ dotC) (h3 : comp ≠ ddot) :
    npStep hs acc comp = acc ++ [comp] := by
  rw [npStep]
  have e1 : (comp == ([] : Str)) = false := beq_eq_false_iff_ne.mpr h1
  have e2 : (comp == dotC) = false := beq_eq_false_iff_ne.mpr h2
  have e3 : (comp == ddot) = false := beq_eq_false_iff_ne.mpr h3
  rw [e1, e2, e3]
  simp

lemma foldl_npStep_plain (hs : Bool) (l : List Str) (acc : List Str)
    (h : ∀ c ∈ l, goodComp c ∧ c ≠ ddot) :
    l.foldl (npStep hs) acc = acc ++ l := by
  induction l generalizing acc with
  | nil => simp
  | cons c t ih =>
      obtain ⟨⟨h1, h2, _⟩, h3⟩ := h c (by simp)
      rw [List.foldl_cons, npStep_plain hs acc c h1 h2 h3,
        ih _ (fun x hx => h x (by simp [hx]))]
      simp

lemma npStep_ddot_dots (i : Nat) :
    npStep false (List.replicate i ddot) ddot = List.replicate (i + 1) ddot := by
  cases i with
  | zero => decide
  | succ n =>
      have hlast : (List.replicate (n + 1) ddot).getLast? = some ddot := by
        rw [List.replicate_succ']
        exact List.getLast?_concat _
      rw [npStep]
      have e1 : (ddot == ([] : Str) || ddot == dotC) = false := by decide
      rw [e1]
      have e2 : (!(ddot == ddot) || (!false && (List.replicate (n + 1) ddot).isEmpty) ||
          (!(List.replicate (n + 1) ddot).isEmpty &&
            ((List.replicate (n + 1) ddot).getLast? == some ddot))) = true := by
        rw [hlast]
        simp [List.replicate_succ]
      rw [e2]
      simp [List.replicate_succ']

lemma foldl_npStep_dots (j i : Nat) :
    (List.replicate j ddot).foldl (npStep false) (List.replicate i ddot)
      = List.replicate (i + j) ddot := by
  induction j generalizing i with
  | zero => simp
  | succ n ih =>
      rw [List.replicate_succ, List.foldl_cons, npStep_ddot_dots i, ih (i + 1)]
      congr 1
      omega

lemma npStep_inv (hs : Bool) (acc : List Str) (comp : Str)
    (hinv : npAccInv hs acc) (hc : '/' ∉ comp) :
    npAccInv hs (npStep hs acc comp) := by
  obtain ⟨hgood, j, rest, hdec, hnr, hjs⟩ := hinv
  by_cases h1 : comp = [] ∨ comp = dotC
  · rw [npStep_skip hs acc comp h1]
    exact ⟨hgood, j, rest, hdec, hnr, hjs⟩
  push_neg at h1
  obtain ⟨h1a, h1b⟩ := h1
  by_cases h2 : comp = ddot
  swap
  · rw [npStep_plain hs acc comp h1a h1b h2]
    refine ⟨?_, j, rest ++ [comp], by rw [hdec, List.append_assoc], ?_, hjs⟩
    · intro c hcm
      rcases List.mem_append.mp hcm with hcm | hcm
      · exact hgood c hcm
      · simp only [List.mem_singleton] at hcm
        subst hcm
        exact ⟨h1a, h1b, hc⟩
    · intro hmem
      rcases List.mem_append.mp hmem with hmem | hmem
      · exact hnr hmem
      · simp only [List.mem_singleton] at hmem
        exact h2 hmem.symm
  · subst h2
    rw [npStep]
    have e1 : (ddot == ([] : Str) || ddot == dotC) = false := by decide
    rw [e1]
    simp only [Bool.false_eq_true, if_false]
    by_cases hacc : acc = []
    · subst hacc
      cases hhs : hs
      · have e2 : (!(ddot == ddot) || (!false && (List.isEmpty ([] : List Str))) ||
            (!(List.isEmpty ([] : List Str)) && ((List.getLast? ([] : List Str)) == some ddot)))
            = true := by decide
        rw [e2]
        simp only [if_true, List.nil_append]
        refine ⟨?_, 1, [], by simp, by simp, by simp⟩
        intro c hcm
        simp only [List.mem_singleton] at hcm
        subst hcm
        exact goodComp_ddot
      · have e2 : (!(ddot == ddot) || (!true && (List.isEmpty ([] : List Str))) ||
            (!(List.isEmpty ([] : List Str)) && ((List.getLast? ([] : List Str)) == some ddot)))
            = false := by decide
        rw [e2]
        simp only [Bool.false_eq_true, if_false, List.isEmpty_nil, Bool.not_true, if_false]
        exact ⟨by simp, 0, [], by simp, by simp, fun _ => rfl⟩
    · have hie : acc.isEmpty = false := by
        cases acc with
        | nil => exact absurd rfl hacc
        | cons a t => rfl
      by_cases hlast : acc.getLast? = some ddot
      · have hrest : rest = [] := by
          by_contra hr
          have hgl := List.getLast?_append_of_ne_nil (List.replicate j ddot) hr
          rw [← hdec, hlast] at hgl
          have hmem : ddot ∈ rest := by
            obtain ⟨hne2, heq⟩ := List.mem_getLast?_eq_getLast (l := rest) (x := ddot)
              (by rw [hgl.symm]; rfl)
            rw [heq]
            exact List.getLast_mem hne2
          exact hnr hmem
        rw [hrest, List.append_nil] at hdec
        have hj1 : j ≠ 0 := by
          intro hj0
          rw [hj0] at hdec
          exact hacc (by simpa using hdec)
        have hhs : hs = false := by
          cases hhs2 : hs
          · rfl
          · exact absurd (hjs hhs2) hj1
        subst hhs
        have e2 : (!(ddot == ddot) || (!false && acc.isEmpty) ||
            (!acc.isEmpty && (acc.getLast? == some ddot))) = true := by
          rw [hie, hlast]
          decide
        rw [e2]
        simp only [if_true]
        refine ⟨?_, j + 1, [], ?_, by simp, by simp⟩
        · intro c hcm
          rcases List.mem_append.mp hcm with hcm | hcm
          · exact hgood c hcm
          · simp only [List.mem_singleton] at hcm
            subst hcm
            exact goodComp_ddot
        · rw [List.replicate_succ', hdec, List.append_nil]
      · have e2 : (!(ddot == ddot) || (!hs && acc.isEmpty) ||
            (!acc.isEmpty && (acc.getLast? == some ddot))) = false := by
          rw [hie, beq_eq_false_iff_ne.mpr hlast]
          simp
        rw [e2]
        simp only [Bool.false_eq_true, if_false, hie, Bool.not_false, if_true]
        have hrest : rest ≠ [] := by
          intro hr
          rw [hr, List.append_nil] at hdec
          have hj1 : j ≠ 0 := by
            intro hj0
            rw [hj0] at hdec
            exact hacc (by simpa using hdec)
          obtain ⟨n, hn⟩ := Nat.exists_eq_succ_of_ne_zero hj1
          rw [hn, List.replicate_succ'] at hdec
          rw [hdec] at hlast
          exact hlast (List.getLast?_concat _)
        refine ⟨?_, j, rest.dropLast, ?_, ?_, hjs⟩
        · intro c hcm
          exact hgood c ((List.dropLast_sublist acc).subset hcm)
        · rw [hdec, List.dropLast_append_of_ne_nil _ hrest]
        · intro hmem
          exact hnr ((List.dropLast_sublist rest).subset hmem)

lemma foldl_npStep_inv (hs : Bool) (l : List Str) (acc : List Str)
    (hinv : npAccInv hs acc) (h : ∀ c ∈ l, '/' ∉ c) :
    npAccInv hs (l.foldl (npStep hs) acc) := by
  induction l generalizing acc with
  | nil => simpa
  | cons c t ih =>
      rw [List.foldl_cons]
      exact ih _ (npStep_inv hs acc c hinv (h c (by simp))) (fun x hx => h x (by simp [hx]))

lemma npAccInv_nil (hs : Bool) : npAccInv hs [] :=
  ⟨by simp, 0, [], by simp, by simp, fun _ => rfl⟩

lemma npComps_inv (p : Str) : npAccInv (List.isPrefixOf ['/'] p) (npComps p) :=
  foldl_npStep_inv _ _ [] (npAccInv_nil _) (pySplit_mem_no_sep '/' p)

lemma foldl_npStep_fixpoint (hs : Bool) (l : List Str) (hinv : npAccInv hs l) :
    l.foldl (npStep hs) [] = l := by
  obtain ⟨hgood, j, rest, hdec, hnr, hjs⟩ := hinv
  have hrest : ∀ c ∈ rest, goodComp c ∧ c ≠ ddot := fun c hcm =>
    ⟨hgood c (by rw [hdec]; exact List.mem_append.mpr (Or.inr hcm)),
     fun hx => hnr (hx ▸ hcm)⟩
  rw [hdec, List.foldl_append]
  cases hj : j with
  | zero =>
      simp only [List.replicate, List.foldl_nil]
      rw [foldl_npStep_plain hs rest [] hrest, List.nil_append]
  | succ n =>
      have hhs : hs = false := by
        cases hhs2 : hs
        · rfl
        · rw [hj] at hjs
          exact absurd (hjs hhs2) (Nat.succ_ne_zero n)
      subst hhs
      have hd0 : (List.replicate (n + 1) ddot).foldl (npStep false) ([] : List Str)
          = List.replicate (n + 1) ddot := by
        have := foldl_npStep_dots (n + 1) 0
        simpa using this
      rw [hd0, foldl_npStep_plain false rest _ hrest]

lemma foldl_npStep_empties (hs : Bool) (k : Nat) (acc : List Str) :
    (List.replicate k ([] : Str)).foldl (npStep hs) acc = acc := by
  induction k generalizing acc with
  | zero => rfl
  | succ n ih =>
      rw [List.replicate_succ, List.foldl_cons, npStep_skip hs acc [] (Or.inl rfl)]
      exact ih acc

lemma npSlashes_le_two (p : Str) : npSlashes p ≤ 2 := by
  rw [npSlashes]
  split_ifs <;> omega

lemma npSlashes_pos_iff (p : Str) : npSlashes p ≠ 0 ↔ List.isPrefixOf ['/'] p = true := by
  rw [npSlashes]
  split_ifs with h1 h2
  · simp only [ne_eq, OfNat.ofNat_ne_zero, not_false_eq_true, true_iff]
    simp only [Bool.and_eq_true] at h1
    exact h1.1.1
  · simp [h2]
  · simp [h2]

lemma joinSep_structure (nc : List Str) (hgood : ∀ c ∈ nc, goodComp c) (hne : nc ≠ []) :
    ∃ ch t, joinSep '/' nc = ch :: t ∧ ('/' == ch) = false := by
  cases nc with
  | nil => exact absurd rfl hne
  | cons x r =>
      cases hx : x with
      | nil => exact absurd hx (hgood x (by simp)).1
      | cons ch cs =>
          have hch : ('/' == ch) = false := by
            refine beq_eq_false_iff_ne.mpr ?_
            intro he
            exact (hgood x (by simp)).2.2 (by rw [hx, ← he]; simp)
          cases r with
          | nil => exact ⟨ch, cs, rfl, hch⟩
          | cons y r2 => exact ⟨ch, cs ++ '/' :: joinSep '/' (y :: r2), rfl, hch⟩

lemma normpath_render_fix (s1 : Bool) (k : Nat) (nc : List Str)
    (hk2 : k ≤ 2) (hs1 : k = 0 ↔ s1 = false) (hinv : npAccInv s1 nc)
    (hne : npRender k nc ≠ []) :
    normpath (npRender k nc) = npRender k nc := by
  have hgood := hinv.1
  have hnosl : ∀ c ∈ nc, '/' ∉ c := fun c hc => (hgood c hc).2.2
  have hs1t : k ≠ 0 → s1 = true := by
    intro hk
    cases hs : s1
    · exact absurd (hs1.mpr hs) hk
    · rfl
  by_cases hncne : nc = []
  · subst hncne
    have hq : npRender k [] = List.replicate k '/' := by
      rw [npRender, show joinSep '/' ([] : List Str) = [] from rfl, List.append_nil]
    interval_cases k
    · exact absurd (by rw [hq]; rfl) hne
    · rw [hq]
      decide
    · rw [hq]
      decide
  · obtain ⟨ch, t, hjoin, hch⟩ := joinSep_structure nc hgood hncne
    have hq : npRender k nc = List.replicate k '/' ++ ch :: t := by rw [npRender, hjoin]
    have hsplit : pySplit '/' (npRender k nc) = List.replicate k [] ++ nc := by
      rw [npRender, pySplit_replicate, pySplit_joinSep '/' nc hncne hnosl]
    have hpre : List.isPrefixOf ['/'] (npRender k nc) = s1 := by
      interval_cases k
      · rw [hq, hs1.mp rfl]
        simp [List.isPrefixOf, hch, List.replicate]
      · rw [hq, hs1t one_ne_zero]
        simp [List.isPrefixOf, List.replicate]
      · rw [hq, hs1t (by omega)]
        simp [List.isPrefixOf, List.replicate]
    have hsl : npSlashes (npRender k nc) = k := by
      interval_cases k
      · rw [npSlashes, hq]
        simp [List.isPrefixOf, hch, List.replicate]
      · rw [npSlashes, hq]
        simp [List.isPrefixOf, hch, List.replicate]
      · rw [npSlashes, hq]
        simp [List.isPrefixOf, hch, List.replicate]
    have hcomps : npComps (npRender k nc) = nc := by
      rw [npComps, hsplit, hpre, List.foldl_append, foldl_npStep_empties]
      exact foldl_npStep_fixpoint s1 nc hinv
    have hie : (npRender k nc).isEmpty = false := by
      cases hq2 : npRender k nc with
      | nil => exact absurd hq2 hne
      | cons a b => rfl
    simp only [normpath, hsl, hcomps, hie]
    simp

/-- `posixpath.normpath` is idempotent. -/
lemma normpath_idem (p : Str) : normpath (normpath p) = normpath p := by
  by_cases hp : p.isEmpty = true
  · have hNP : normpath p = dotC := by rw [normpath, if_pos hp]
    rw [hNP]
    decide
  · by_cases hr : (npRender (npSlashes p) (npComps p)).isEmpty = true
    · have hNP : normpath p = dotC := by rw [normpath, if_neg hp, if_pos hr]
      rw [hNP]
      decide
    · have hNP : normpath p = npRender (npSlashes p) (npComps p) := by
        rw [normpath, if_neg hp, if_neg hr]
      rw [hNP]
      refine normpath_render_fix (List.isPrefixOf ['/'] p) (npSlashes p) (npComps p)
        (npSlashes_le_two p) ?_ (npComps_inv p) ?_
      · constructor
        · intro hk
          cases hs : List.isPrefixOf ['/'] p
          · rfl
          · exact absurd ((npSlashes_pos_iff p).mpr hs) (by simp [hk])
        · intro hs
          by_contra hk
          rw [(npSlashes_pos_iff p).mp hk] at hs
          cases hs
      · intro hx
        rw [hx] at hr
        exact hr rfl

lemma isabs_head (a : Str) (h : isabs a = true) : ∃ t, a = '/' :: t := by
  cases a with
  | nil => cases h
  | cons c t =>
      refine ⟨t, ?_⟩
      have hc : ('/' == c) = true := by
        simpa [isabs, List.isPrefixOf] using h
      rw [show c = '/' from (beq_iff_eq.mp hc).symm]

lemma isabs_npRender (k : Nat) (hk : k ≠ 0) (nc : List Str) :
    isabs (npRender k nc) = true := by
  obtain ⟨n, hn⟩ := Nat.exists_eq_succ_of_ne_zero hk
  rw [npRender, hn, List.replicate_succ, List.cons_append]
  simp [isabs, List.isPrefixOf]

lemma normpath_isabs (p : Str) (h : isabs p = true) : isabs (normpath p) = true := by
  obtain ⟨t, ht⟩ := isabs_head p h
  have hpne : p.isEmpty = false := by rw [ht]; rfl
  have hk : npSlashes p ≠ 0 := (npSlashes_pos_iff p).mpr h
  have habs := isabs_npRender _ hk (npComps p)
  have hrne : (npRender (npSlashes p) (npComps p)).isEmpty = false := by
    obtain ⟨t2, ht2⟩ := isabs_head _ habs
    rw [ht2]
    rfl
  rw [normpath, if_neg (by rw [hpne]; simp), if_neg (by rw [hrne]; simp)]
  exact habs

lemma pyJoin2_isabs (a b : Str) (h : isabs a = true) : isabs (pyJoin2 a b) = true := by
  rw [pyJoin2]
  split
  · assumption
  · obtain ⟨t, ht⟩ := isabs_head a h
    split
    · rw [ht, List.cons_append]
      simp [isabs, List.isPrefixOf]
    · rw [ht, List.cons_append]
      simp [isabs, List.isPrefixOf]

lemma abspath_eq_normpath (cwd p : Str) : ∃ x, abspath cwd p = normpath x := by
  rw [abspath]
  split
  · exact ⟨p, rfl⟩
  · exact ⟨pyJoin2 cwd p, rfl⟩

/-- With an absolute working directory, `normalize` always yields an absolute
path. -/
lemma normalizeS_isabs (cwd p : Str) (h : isabs cwd = true) :
    isabs (normalizeS cwd p) = true := by
  rw [normalizeS, abspath]
  split
  · exact normpath_isabs p (by assumption)
  · exact normpath_isabs _ (pyJoin2_isabs cwd p h)

/-- With an absolute working directory, `normalize` is idempotent — even
across a later working-directory change. -/
lemma normalizeS_idem (cwd cwd2 p : Str) (h : isabs cwd = true) :
    normalizeS cwd2 (normalizeS cwd p) = normalizeS cwd p := by
  have habs := normalizeS_isabs cwd p h
  obtain ⟨x, hx⟩ : ∃ x, normalizeS cwd p = normpath x := by
    rw [normalizeS]
    exact abspath_eq_normpath cwd p
  rw [normalizeS, abspath, if_pos habs]
  conv_lhs => rw [hx]
  rw [normpath_idem]
  exact hx.symm

/-- C10: path normalization is idempotent — for every path `p`,
`normalize(normalize(p)) = normalize(p)` (relative to the process's absolute
working directory) and `normalize(None) = None` — so every stored
breakpoint's `filename` property equals the normalization of the raw
filename it was created with, and `find_breakpoint(filename, line)` finds a
breakpoint whenever the two raw paths normalize to the same path, even if
the raw strings differ. -/
theorem C10_normalize_idempotent (cwd : Str) (hcwd : isabs cwd = true) :
    (∀ p : Option Str, normalize cwd (normalize cwd p) = normalize cwd p) ∧
    normalize cwd none = none ∧
    (∀ (raw : Str) (line : Nat),
       bpFilename cwd (mkBp cwd raw line) = normalizeS cwd raw) ∧
    (∀ (bps : List JDBBp) (raw1 raw2 : Str) (line : Nat),
       normalizeS cwd raw1 = normalizeS cwd raw2 →
       mkBp cwd raw1 line ∈ bps →
       (find_breakpoint cwd bps raw2 line).isSome = true) := by
  have hidem : ∀ p : Str, normalizeS cwd (normalizeS cwd p) = normalizeS cwd p :=
    fun p => normalizeS_idem cwd cwd p hcwd
  have hfile : ∀ (raw : Str) (line : Nat),
      bpFilename cwd (mkBp cwd raw line) = normalizeS cwd raw := by
    intro raw line
    rw [show bpFilename cwd (mkBp cwd raw line)
        = normalizeS cwd (normalizeS cwd raw) from rfl]
    exact hidem raw
  refine ⟨?_, rfl, hfile, ?_⟩
  · intro p
    cases p with
    | none => rfl
    | some f =>
        simp only [normalize]
        rw [hidem f]
  · intro bps raw1 raw2 line hnorm hmem
    rw [find_breakpoint]
    have hp : bpMatches cwd raw2 line (mkBp cwd raw1 line) = true := by
      rw [bpMatches, hfile raw1 line, hnorm]
      simp [mkBp]
    exact (List.find?_isSome).mpr ⟨mkBp cwd raw1 line, hmem, hp⟩

/-- C10 witness: the concrete absolute working directory `"/w"`. -/
theorem C10_normalize_idempotent_witness :
    isabs (strLC "/w") = true ∧ normalize (strLC "/w") none = none :=
  ⟨by decide, (C10_normalize_idempotent (strLC "/w") (by decide)).2.1⟩

/-- `update_view` only reorders the registry (sorts when the view is open). -/
lemma update_view_perm (isOpen : Bool) (cwd : Str) (bps : List JDBBp) :
    List.Perm (update_view isOpen cwd bps) bps := by
  rw [update_view]
  split
  · exact List.mergeSort_perm bps _
  · exact List.Perm.refl bps

lemma toggle_eq_of_absent (isOpen running : Bool) (cwd srcMarker : Str)
    (replies : Str → Str) (bps : List JDBBp) (filename : Str) (line : Nat)
    (h : find_breakpoint cwd bps filename line = none) :
    toggle_breakpoint isOpen running cwd srcMarker replies bps filename line
      = (update_view isOpen cwd (bps ++ [mkBp cwd filename line]),
         (bpAdd running srcMarker replies (mkBp cwd filename line)).1) := by
  simp only [toggle_breakpoint, h]

lemma toggle_eq_of_found (isOpen running : Bool) (cwd srcMarker : Str)
    (replies : Str → Str) (bps : List JDBBp) (filename : Str) (line : Nat)
    (b : JDBBp) (h : find_breakpoint cwd bps filename line = some b) :
    toggle_breakpoint isOpen running cwd srcMarker replies bps filename line
      = (update_view isOpen cwd (bps.erase b),
         (bpRemove running srcMarker replies b).1) := by
  simp only [toggle_breakpoint, h]

/-- Two consecutive toggles at the same location, with the session running:
the pair (first toggle result, second toggle result). -/
def toggleTwice (isOpen : Bool) (cwd srcMarker : Str) (replies : Str → Str)
    (bps : List JDBBp) (filename : Str) (line : Nat) :
    (List JDBBp × List Str) × (List JDBBp × List Str) :=
  let t1 := toggle_breakpoint isOpen true cwd srcMarker replies bps filename line
  let t2 := toggle_breakpoint isOpen true cwd srcMarker replies t1.1 filename line
  (t1, t2)

/-- The (filename, line) location key of a registry entry. -/
def bpLoc (cwd : Str) (b : JDBBp) : Str × Nat := (bpFilename cwd b, b.original_line)

/-- C7 (amended): toggling the same (file, line) twice restores the
registry's size and membership; with the session running, when the location
was absent it issues exactly one insertion command then one removal command,
in that order — but when the location was already present, the order is
reversed: one removal command then one insertion command. -/
theorem C7_toggle_twice (isOpen : Bool) (cwd srcMarker : Str) (replies : Str → Str)
    (bps : List JDBBp) (filename : Str) (line : Nat)
    (hcwd : isabs cwd = true)
    (huniq : bps.countP (bpMatches cwd filename line) ≤ 1) :
    (find_breakpoint cwd bps filename line = none →
       List.Perm (toggleTwice isOpen cwd srcMarker replies bps filename line).2.1 bps ∧
       (toggleTwice isOpen cwd srcMarker replies bps filename line).2.1.length
         = bps.length ∧
       (toggleTwice isOpen cwd srcMarker replies bps filename line).1.2
         = [bpAddCmd srcMarker (mkBp cwd filename line)] ∧
       (toggleTwice isOpen cwd srcMarker replies bps filename line).2.2
         = [bpClearCmd srcMarker (mkBp cwd filename line)]) ∧
    (∀ b0, find_breakpoint cwd bps filename line = some b0 →
       List.Perm ((toggleTwice isOpen cwd srcMarker replies bps filename line).2.1.map
           (bpLoc cwd)) (bps.map (bpLoc cwd)) ∧
       (toggleTwice isOpen cwd srcMarker replies bps filename line).2.1.length
         = bps.length ∧
       (toggleTwice isOpen cwd srcMarker replies bps filename line).1.2
         = [bpClearCmd srcMarker b0] ∧
       (toggleTwice isOpen cwd srcMarker replies bps filename line).2.2
         = [bpAddCmd srcMarker (mkBp cwd filename line)]) := by
  have hmatch_nb : bpMatches cwd filename line (mkBp cwd filename line) = true := by
    rw [bpMatches, show bpFilename cwd (mkBp cwd filename line)
        = normalizeS cwd (normalizeS cwd filename) from rfl,
      normalizeS_idem cwd cwd filename hcwd]
    simp [mkBp]
  constructor
  · intro hfind
    have hnone : ∀ b ∈ bps, bpMatches cwd filename line b = false := by
      intro b hb
      have hx := List.find?_eq_none.mp hfind b hb
      cases h2 : bpMatches cwd filename line b
      · rfl
      · exact absurd h2 hx
    have hnb_notin : mkBp cwd filename line ∉ bps := by
      intro hmem
      rw [hnone _ hmem] at hmatch_nb
      cases hmatch_nb
    have ht1 : toggle_breakpoint isOpen true cwd srcMarker replies bps filename line
        = (update_view isOpen cwd (bps ++ [mkBp cwd filename line]),
           (bpAdd true srcMarker replies (mkBp cwd filename line)).1) :=
      toggle_eq_of_absent isOpen true cwd srcMarker replies bps filename line hfind
    have hperm1 : List.Perm
        (toggle_breakpoint isOpen true cwd srcMarker replies bps filename line).1
        (bps ++ [mkBp cwd filename line]) := by
      rw [ht1]
      exact update_view_perm isOpen cwd _
    have hnbmem : mkBp cwd filename line ∈
        (toggle_breakpoint isOpen true cwd srcMarker replies bps filename line).1 :=
      hperm1.mem_iff.mpr (by simp)
    have hfind2 : find_breakpoint cwd
        (toggle_breakpoint isOpen true cwd srcMarker replies bps filename line).1
        filename line = some (mkBp cwd filename line) := by
      have hsome : (find_breakpoint cwd
          (toggle_breakpoint isOpen true cwd srcMarker replies bps filename line).1
          filename line).isSome = true :=
        List.find?_isSome.mpr ⟨mkBp cwd filename line, hnbmem, hmatch_nb⟩
      obtain ⟨b2, hb2⟩ := Option.isSome_iff_exists.mp hsome
      have hb2pred : bpMatches cwd filename line b2 = true := List.find?_some hb2
      have hb2mem := List.mem_of_find?_eq_some hb2
      have hb2eq : b2 = mkBp cwd filename line := by
        rcases List.mem_append.mp (hperm1.mem_iff.mp hb2mem) with hm | hm
        · rw [hnone b2 hm] at hb2pred
          cases hb2pred
        · simpa using hm
      rw [hb2] at *
      rw [hb2eq]
    have ht2 : toggle_breakpoint isOpen true cwd srcMarker replies
        (toggle_breakpoint isOpen true cwd srcMarker replies bps filename line).1
        filename line
        = (update_view isOpen cwd
            ((toggle_breakpoint isOpen true cwd srcMarker replies bps filename line).1.erase
              (mkBp cwd filename line)),
           (bpRemove true srcMarker replies (mkBp cwd filename line)).1) :=
      toggle_eq_of_found isOpen true cwd srcMarker replies _ filename line _ hfind2
    have hperm2 : List.Perm (toggle_breakpoint isOpen true cwd srcMarker replies
        (toggle_breakpoint isOpen true cwd srcMarker replies bps filename line).1
        filename line).1 bps := by
      rw [ht2]
      refine (update_view_perm isOpen cwd _).trans ?_
      refine (hperm1.erase (mkBp cwd filename line)).trans ?_
      rw [List.erase_append_right _ hnb_notin, List.erase_cons_head, List.append_nil]
    refine ⟨hperm2, hperm2.length_eq, ?_, ?_⟩
    · rw [show (toggleTwice isOpen cwd srcMarker replies bps filename line).1.2
          = (toggle_breakpoint isOpen true cwd srcMarker replies bps filename line).2
          from rfl, ht1]
      exact bpAdd_cmds srcMarker replies _
    · rw [show (toggleTwice isOpen cwd srcMarker replies bps filename line).2.2
          = (toggle_breakpoint isOpen true cwd srcMarker replies
              (toggle_breakpoint isOpen true cwd srcMarker replies bps filename line).1
              filename line).2 from rfl, ht2]
      exact bpRemove_cmds srcMarker replies _
  · intro b0 hfind
    have hb0pred : bpMatches cwd filename line b0 = true := List.find?_some hfind
    have hb0mem : b0 ∈ bps := List.mem_of_find?_eq_some hfind
    have ht1 : toggle_breakpoint isOpen true cwd srcMarker replies bps filename line
        = (update_view isOpen cwd (bps.erase b0),
           (bpRemove true srcMarker replies b0).1) :=
      toggle_eq_of_found isOpen true cwd srcMarker replies bps filename line b0 hfind
    have hperm1 : List.Perm
        (toggle_breakpoint isOpen true cwd srcMarker replies bps filename line).1
        (bps.erase b0) := by
      rw [ht1]
      exact update_view_perm isOpen cwd _
    have hcount : (bps.erase b0).countP (bpMatches cwd filename line) = 0 := by
      have hc1 := (List.perm_cons_erase hb0mem).countP_eq (bpMatches cwd filename line)
      rw [List.countP_cons, hb0pred] at hc1
      simp only [if_true] at hc1
      omega
    have hnone2 : ∀ b ∈
        (toggle_breakpoint isOpen true cwd srcMarker replies bps filename line).1,
        bpMatches cwd filename line b = false := by
      intro b hb
      have hbe : b ∈ bps.erase b0 := hperm1.mem_iff.mp hb
      have hx := List.countP_eq_zero.mp hcount b hbe
      cases h2 : bpMatches cwd filename line b
      · rfl
      · exact absurd h2 hx
    have hfind2 : find_breakpoint cwd
        (toggle_breakpoint isOpen true cwd srcMarker replies bps filename line).1
        filename line = none :=
      List.find?_eq_none.mpr (fun x hx => by rw [hnone2 x hx]; exact Bool.false_ne_true)
    have ht2 : toggle_breakpoint isOpen true cwd srcMarker replies
        (toggle_breakpoint isOpen true cwd srcMarker replies bps filename line).1
        filename line
        = (update_view isOpen cwd
            ((toggle_breakpoint isOpen true cwd srcMarker replies bps filename line).1
              ++ [mkBp cwd filename line]),
           (bpAdd true srcMarker replies (mkBp cwd filename line)).1) :=
      toggle_eq_of_absent isOpen true cwd srcMarker replies _ filename line hfind2
    have hperm2 : List.Perm (toggle_breakpoint isOpen true cwd srcMarker replies
        (toggle_breakpoint isOpen true cwd srcMarker replies bps filename line).1
        filename line).1 (bps.erase b0 ++ [mkBp cwd filename line]) := by
      rw [ht2]
      exact (update_view_perm isOpen cwd _).trans (hperm1.append_right _)
    have hb0parts : bpFilename cwd b0 = normalizeS cwd filename ∧
        b0.original_line = line := by
      rw [bpMatches] at hb0pred
      simp only [Bool.and_eq_true, beq_iff_eq] at hb0pred
      exact hb0pred
    have hloc : bpLoc cwd (mkBp cwd filename line) = bpLoc cwd b0 := by
      rw [bpLoc, bpLoc, hb0parts.1, hb0parts.2,
        show bpFilename cwd (mkBp cwd filename line)
          = normalizeS cwd (normalizeS cwd filename) from rfl,
        normalizeS_idem cwd cwd filename hcwd]
      rfl
    have e1 : (bps.erase b0 ++ [mkBp cwd filename line]).map (bpLoc cwd)
        = (bps.erase b0).map (bpLoc cwd) ++ [bpLoc cwd b0] := by
      rw [List.map_append, List.map_singleton, hloc]
    have p3 : List.Perm (bpLoc cwd b0 :: (bps.erase b0).map (bpLoc cwd))
        (bps.map (bpLoc cwd)) := by
      rw [← List.map_cons]
      exact ((List.perm_cons_erase hb0mem).map (bpLoc cwd)).symm
    have hmap : List.Perm ((toggle_breakpoint isOpen true cwd srcMarker replies
        (toggle_breakpoint isOpen true cwd srcMarker replies bps filename line).1
        filename line).1.map (bpLoc cwd)) (bps.map (bpLoc cwd)) := by
      refine (hperm2.map (bpLoc cwd)).trans ?_
      rw [e1]
      exact (List.perm_append_singleton _ _).trans p3
    have hlen : (toggle_breakpoint isOpen true cwd srcMarker replies
        (toggle_breakpoint isOpen true cwd srcMarker replies bps filename line).1
        filename line).1.length = bps.length := by
      have hx := hmap.length_eq
      simpa using hx
    refine ⟨hmap, hlen, ?_, ?_⟩
    · rw [show (toggleTwice isOpen cwd srcMarker replies bps filename line).1.2
          = (toggle_breakpoint isOpen true cwd srcMarker replies bps filename line).2
          from rfl, ht1]
      exact bpRemove_cmds srcMarker replies _
    · rw [show (toggleTwice isOpen cwd srcMarker replies bps filename line).2.2
          = (toggle_breakpoint isOpen true cwd srcMarker replies
              (toggle_breakpoint isOpen true cwd srcMarker replies bps filename line).1
              filename line).2 from rfl, ht2]
      exact bpAdd_cmds srcMarker replies _

/-- C7 witness: starting from an empty registry (location absent), with the
session running: the first toggle issues the insertion command. -/
theorem C7_toggle_twice_witness :
    isabs (strLC "/w") = true ∧
    (toggleTwice false (strLC "/w") (strLC "/p/") (fun _ => []) []
        (strLC "/p/A.java") 1).1.2
      = [bpAddCmd (strLC "/p/") (mkBp (strLC "/w") (strLC "/p/A.java") 1)] :=
  ⟨by decide,
   ((C7_toggle_twice false (strLC "/w") (strLC "/p/") (fun _ => []) []
      (strLC "/p/A.java") 1 (by decide) (by decide)).1 rfl).2.2.1⟩

/-- C7 counterexample: with the breakpoint `/p/A.java:1` already present and
the session running, toggling it twice issues the removal command first and
the insertion command second — the opposite of the claimed
insertion-then-removal order. -/
theorem C7_counterexample :
    (toggle_breakpoint false true (strLC "/w") (strLC "/p/") (fun _ => [])
        [⟨strLC "/p/A.java", 1⟩] (strLC "/p/A.java") 1).2
      = [strLC "clear A:1"] ∧
    (toggle_breakpoint false true (strLC "/w") (strLC "/p/") (fun _ => [])
        (toggle_breakpoint false true (strLC "/w") (strLC "/p/") (fun _ => [])
          [⟨strLC "/p/A.java", 1⟩] (strLC "/p/A.java") 1).1 (strLC "/p/A.java") 1).2
      = [strLC "stop at A:1"] ∧
    [strLC "clear A:1", strLC "stop at A:1"]
      ≠ [strLC "stop at A:1", strLC "clear A:1"] := by
  have hfind : find_breakpoint (strLC "/w") [⟨strLC "/p/A.java", 1⟩]
      (strLC "/p/A.java") 1 = some ⟨strLC "/p/A.java", 1⟩ := by decide
  have ht1 := toggle_eq_of_found false true (strLC "/w") (strLC "/p/") (fun _ => [])
      [⟨strLC "/p/A.java", 1⟩] (strLC "/p/A.java") 1 ⟨strLC "/p/A.java", 1⟩ hfind
  have ht1r : (toggle_breakpoint false true (strLC "/w") (strLC "/p/") (fun _ => [])
      [⟨strLC "/p/A.java", 1⟩] (strLC "/p/A.java") 1).1 = [] := by
    rw [ht1]
    decide
  have hfind2 : find_breakpoint (strLC "/w") ([] : List JDBBp)
      (strLC "/p/A.java") 1 = none := rfl
  have ht2 := toggle_eq_of_absent false true (strLC "/w") (strLC "/p/") (fun _ => [])
      [] (strLC "/p/A.java") 1 hfind2
  have hclass : determine_class_from_file (strLC "/p/") (strLC "/p/A.java")
      = strLC "A" := by
    simp only [determine_class_from_file]
    have r1 : pyReplace (strLC "\\") (strLC "/") (strLC "/p/A.java")
        = strLC "/p/A.java" := by
      simp [pyReplace, strLC, List.isPrefixOf]
    rw [r1]
    have r2 : pySliceFrom (strLC "/p/A.java")
        (pyFind (strLC "/p/A.java") (strLC "/p/") + ((strLC "/p/").length : Int))
        = strLC "A.java" := by decide
    rw [r2]
    have r3 : pyReplace (strLC "/") (strLC ".") (strLC "A.java") = strLC "A.java" := by
      simp [pyReplace, strLC, List.isPrefixOf]
    rw [r3]
    have r4 : pyReplace (strLC ".java") [] (strLC "A.java") = strLC "A" := by
      simp [pyReplace, strLC, List.isPrefixOf]
    rw [r4]
  refine ⟨?_, ?_, by decide⟩
  · rw [ht1]
    show (bpRemove true (strLC "/p/") (fun _ => []) ⟨strLC "/p/A.java", 1⟩).1
      = [strLC "clear A:1"]
    rw [bpRemove_cmds]
    simp only [bpClearCmd, hclass, natChars_one]
    decide
  · rw [ht1r, ht2]
    show (bpAdd true (strLC "/p/") (fun _ => [])
        (mkBp (strLC "/w") (strLC "/p/A.java") 1)).1 = [strLC "stop at A:1"]
    rw [bpAdd_cmds]
    have hmk : mkBp (strLC "/w") (strLC "/p/A.java") 1
        = (⟨strLC "/p/A.java", 1⟩ : JDBBp) := by decide
    rw [hmk]
    simp only [bpAddCmd, hclass, natChars_one]
    decide

end SJDB
